import Mathlib

/-!
Verification development for the `hispanie_scrapper` repository
(`src/main.py`).  The Python source is shallowly embedded: the pure
date-phrase resolver `parse_event_date` is translated into executable Lean
functions (Python `datetime` values become a record of year/month/day/
hour/minute; a raised exception becomes `Except.error ()`; the pair
`(None, None)` becomes `Except.ok none`), and the scraping pipeline
(`_extract_event_links`, `_parse_event_page`, `_filter_event_by_date`,
`scrape`, `scrape_multiple` and the final sort of `__main__`) is embedded
with the browser/DOM layer abstracted as oracle functions, exactly as the
specification describes the external fetch collaborator.

Environment note: the source calls `locale.setlocale(LC_TIME, "fr_FR.UTF-8")`
inside a `try`/`except Exception: pass`.  The whole translation layer
`FR_MONTHS` (French month names mapped to English ones fed to
`strptime("%d %B %Y %H:%M")`) only functions when that call failed and the
process runs under the C locale, where `%B` matches English month names and
`%A` produces English weekday names.  We model that (intended) C-locale
behaviour: `strptime` `%B` accepts the twelve English month names,
`strftime("%A")` yields English weekday names.
-/

/-! ## Calendar primitives (model of Python `datetime.date` / `datetime.datetime`) -/

/-- Gregorian leap-year test, as used by `datetime`. -/
def isLeap (y : Nat) : Bool :=
  (y % 4 == 0 && y % 100 != 0) || y % 400 == 0

/-- Number of days in month `m` (1-12) of year `y`; 0 for an out-of-range month. -/
def daysInMonth (y m : Nat) : Nat :=
  match m with
  | 1 => 31
  | 2 => if isLeap y then 29 else 28
  | 3 => 31
  | 4 => 30
  | 5 => 31
  | 6 => 30
  | 7 => 31
  | 8 => 31
  | 9 => 30
  | 10 => 31
  | 11 => 30
  | 12 => 31
  | _ => 0

/-- Model of a Python `datetime.date`. -/
structure Date where
  year : Nat
  month : Nat
  day : Nat
deriving DecidableEq, Repr

/-- Model of a Python `datetime.datetime` (seconds and below are always zero
in this program, so they are omitted). -/
structure DateTime where
  date : Date
  hour : Nat
  minute : Nat
deriving DecidableEq, Repr

/-- A structurally valid calendar date (what `datetime.date` can hold). -/
def Date.ValidDate (d : Date) : Prop :=
  1 ≤ d.month ∧ d.month ≤ 12 ∧ 1 ≤ d.day ∧ d.day ≤ daysInMonth d.year d.month

instance (d : Date) : Decidable d.ValidDate := by
  unfold Date.ValidDate; infer_instance

/-- Python `date` comparison `<` (lexicographic on year, month, day). -/
def dateLt (a b : Date) : Bool :=
  decide (a.year < b.year) ||
    (decide (a.year = b.year) &&
      (decide (a.month < b.month) ||
        (decide (a.month = b.month) && decide (a.day < b.day))))

/-- Python `date` comparison `<=`. -/
def dateLe (a b : Date) : Bool := dateLt a b || a == b

/-- Python `datetime` comparison `<` (lexicographic). -/
def dtLt (a b : DateTime) : Bool :=
  dateLt a.date b.date ||
    (a.date == b.date &&
      (decide (a.hour < b.hour) ||
        (decide (a.hour = b.hour) && decide (a.minute < b.minute))))

/-- Python `datetime` comparison `<=`. -/
def dtLe (a b : DateTime) : Bool := dtLt a b || a == b

/-- The day after `d` (what `d + timedelta(days=1)` yields on the date part). -/
def succDay (d : Date) : Date :=
  if d.day < daysInMonth d.year d.month then ⟨d.year, d.month, d.day + 1⟩
  else if d.month < 12 then ⟨d.year, d.month + 1, 1⟩
  else ⟨d.year + 1, 1, 1⟩

/-- `d + timedelta(days=n)` on the date part. -/
def addDays (d : Date) : Nat → Date
  | 0 => d
  | n + 1 => succDay (addDays d n)

/-- Days in all years strictly before year `y`, in the proleptic Gregorian
calendar (Python `datetime._days_before_year`). -/
def daysBeforeYear (y : Nat) : Nat :=
  365 * (y - 1) + (y - 1) / 4 - (y - 1) / 100 + (y - 1) / 400

/-- Days in year `y` strictly before month `m` (Python `_days_before_month`). -/
def daysBeforeMonth (y m : Nat) : Nat :=
  match m with
  | 1 => 0
  | 2 => 31
  | 3 => 59 + (if isLeap y then 1 else 0)
  | 4 => 90 + (if isLeap y then 1 else 0)
  | 5 => 120 + (if isLeap y then 1 else 0)
  | 6 => 151 + (if isLeap y then 1 else 0)
  | 7 => 181 + (if isLeap y then 1 else 0)
  | 8 => 212 + (if isLeap y then 1 else 0)
  | 9 => 243 + (if isLeap y then 1 else 0)
  | 10 => 273 + (if isLeap y then 1 else 0)
  | 11 => 304 + (if isLeap y then 1 else 0)
  | 12 => 334 + (if isLeap y then 1 else 0)
  | _ => 365 + (if isLeap y then 1 else 0)

/-- Python `date.toordinal`: day count with 0001-01-01 ↦ 1. -/
def toOrdinal (d : Date) : Nat :=
  daysBeforeYear d.year + daysBeforeMonth d.year d.month + d.day

/-- Python `date.weekday()`: Monday = 0, ..., Sunday = 6.
0001-01-01 (ordinal 1) is a Monday. -/
def weekday (d : Date) : Nat := (toOrdinal d + 6) % 7

/-! ## Vocabulary tables from the source -/

/-- The `FR_MONTHS` dict: French month names (full and abbreviated) mapped to
English names that are then fed to `strptime`. -/
def FR_MONTHS : List (String × String) :=
  [("janvier", "january"), ("février", "february"), ("mars", "march"),
   ("avril", "april"), ("mai", "may"), ("juin", "june"),
   ("juillet", "july"), ("août", "august"), ("septembre", "september"),
   ("octobre", "october"), ("novembre", "november"), ("décembre", "december"),
   ("janv", "january"), ("févr", "february"), ("avr", "april"),
   ("juil", "july"), ("sept", "september"), ("oct", "october"),
   ("nov", "november"), ("déc", "december"), ("mar", "march")]

/-- The `WEEKDAYS` dict, in insertion order (Python 3.7+ dicts preserve it,
and both the regex alternation and the weekday loop iterate in this order). -/
def WEEKDAYS : List (String × Int) :=
  [("demain", -1), ("lundi", 0), ("mardi", 1), ("mercredi", 2),
   ("jeudi", 3), ("vendredi", 4), ("samedi", 5), ("dimanche", 6)]

/-- The `FR_WEEKDAY` dict: English weekday names to French ones. -/
def FR_WEEKDAY : List (String × String) :=
  [("monday", "lundi"), ("tuesday", "mardi"), ("wednesday", "mercredi"),
   ("thursday", "jeudi"), ("friday", "vendredi"), ("saturday", "samedi"),
   ("sunday", "dimanche")]

/-- `strftime("%A").lower()` under the C locale: English weekday name from
`weekday` index (Monday = 0). -/
def strftimeWeekdayName (w : Nat) : String :=
  match w with
  | 0 => "monday"
  | 1 => "tuesday"
  | 2 => "wednesday"
  | 3 => "thursday"
  | 4 => "friday"
  | 5 => "saturday"
  | 6 => "sunday"
  | _ => ""

/-- `strptime` month-name table for `%B` under the C locale
(matching is case-insensitive; all inputs here are already lower-cased). -/
def monthEnToNum (s : String) : Option Nat :=
  match s with
  | "january" => some 1
  | "february" => some 2
  | "march" => some 3
  | "april" => some 4
  | "may" => some 5
  | "june" => some 6
  | "july" => some 7
  | "august" => some 8
  | "september" => some 9
  | "october" => some 10
  | "november" => some 11
  | "december" => some 12
  | _ => none

/-! ## Character utilities (Python string methods used by the source) -/

/-- Python `str.strip` / regex `\s` whitespace. -/
def isSpaceCh (c : Char) : Bool :=
  c = ' ' || c = '\t' || c = '\n' || c = '\r' || c = '\x0b' || c = '\x0c'

/-- Regex `\d`. -/
def isDigitCh (c : Char) : Bool := '0' ≤ c && c ≤ '9'

/-- The regex character class `[a-zéû\.]` used for month/word tokens. -/
def isWordCh (c : Char) : Bool :=
  ('a' ≤ c && c ≤ 'z') || c = 'é' || c = 'û' || c = '.'

def digitVal (c : Char) : Nat := c.toNat - '0'.toNat

/-- Python `str.lower` on the characters that can occur in these phrases. -/
def pyLower (c : Char) : Char :=
  if 'A' ≤ c && c ≤ 'Z' then Char.ofNat (c.toNat + 32)
  else if c = 'É' then 'é'
  else if c = 'È' then 'è'
  else if c = 'Ê' then 'ê'
  else if c = 'À' then 'à'
  else if c = 'Â' then 'â'
  else if c = 'Û' then 'û'
  else if c = 'Ù' then 'ù'
  else if c = 'Î' then 'î'
  else if c = 'Ô' then 'ô'
  else if c = 'Ç' then 'ç'
  else c

/-- Python `str.strip()` (both ends). -/
def stripWs (cs : List Char) : List Char :=
  ((cs.dropWhile isSpaceCh).reverse.dropWhile isSpaceCh).reverse

/-- Python substring test `needle in hay`. -/
def containsSub (needle : List Char) : List Char → Bool
  | [] => needle.isEmpty
  | c :: r => List.isPrefixOf needle (c :: r) || containsSub needle r

/-- Python `s.strip(".")`. -/
def stripDots (s : String) : String :=
  String.mk (((s.data.dropWhile (fun c => c = '.')).reverse.dropWhile
    (fun c => c = '.')).reverse)

/-- `FR_MONTHS.get(month.strip("."), month)`. -/
def frMonth (s : String) : String := (FR_MONTHS.lookup (stripDots s)).getD s

/-! ## Backtracking matchers for the fixed regular expressions

Each component maps a position (a `List Char` suffix) to the list of
possible continuations, ordered the way Python's backtracking engine tries
them (greedy alternatives first).  `re.search` semantics is obtained by
trying each start position left to right and taking the first success. -/

/-- Match a literal run of characters. -/
def litM (pat cs : List Char) : List (List Char) :=
  if List.isPrefixOf pat cs then [cs.drop pat.length] else []

/-- `\d{1,2}`: two digits (greedy, tried first) or one. -/
def digit12M (cs : List Char) : List (Nat × List Char) :=
  match cs with
  | a :: b :: r =>
    if isDigitCh a then
      (if isDigitCh b then [(10 * digitVal a + digitVal b, r)] else []) ++
        [(digitVal a, b :: r)]
    else []
  | [a] => if isDigitCh a then [(digitVal a, [])] else []
  | [] => []

/-- `\d{2}`: exactly two digits. -/
def digit2M (cs : List Char) : List (Nat × List Char) :=
  match cs with
  | a :: b :: r =>
    if isDigitCh a && isDigitCh b then [(10 * digitVal a + digitVal b, r)] else []
  | _ => []

/-- `\d{4}`: exactly four digits. -/
def digit4M (cs : List Char) : List (Nat × List Char) :=
  match cs with
  | a :: b :: c :: e :: r =>
    if isDigitCh a && isDigitCh b && isDigitCh c && isDigitCh e then
      [(1000 * digitVal a + 100 * digitVal b + 10 * digitVal c + digitVal e, r)]
    else []
  | _ => []

/-- Suffixes `cs.drop (k+1), ..., cs.drop 1` — helper for greedy `+`/`*`. -/
def dropAltsFrom (cs : List Char) : Nat → List (Nat × List Char)
  | 0 => []
  | k + 1 => (k + 1, cs.drop (k + 1)) :: dropAltsFrom cs k

/-- `([a-zéû\.]+)`: greedy, longest run first; payload is the captured text. -/
def wordPlusM (cs : List Char) : List (List Char × List Char) :=
  (dropAltsFrom cs ((cs.takeWhile isWordCh).length)).map
    (fun p => (cs.take p.1, p.2))

/-- `\s*`: greedy, longest run of whitespace first (including the empty run). -/
def spacesStarM (cs : List Char) : List (List Char) :=
  ((dropAltsFrom cs ((cs.takeWhile isSpaceCh).length)).map Prod.snd) ++ [cs]

/-- `\s+`: greedy, at least one whitespace character. -/
def spacesPlusM (cs : List Char) : List (List Char) :=
  (dropAltsFrom cs ((cs.takeWhile isSpaceCh).length)).map Prod.snd

/-- `\.?`: greedy, the dot-consuming alternative first. -/
def dotOptM (cs : List Char) : List (List Char) :=
  match cs with
  | '.' :: r => [r, cs]
  | _ => [cs]

/-- `(\d{1,2}:\d{2})`, with the two numbers already converted by
`map(int, time_str.split(":"))`. -/
def time12M (cs : List Char) : List ((Nat × Nat) × List Char) :=
  (digit12M cs).flatMap (fun p =>
    (litM [':'] p.2).flatMap (fun r1 =>
      (digit2M r1).map (fun q => ((p.1, q.1), q.2))))

/-- `(\d{2}:\d{2})`, numbers already converted. -/
def time22M (cs : List Char) : List ((Nat × Nat) × List Char) :=
  (digit2M cs).flatMap (fun p =>
    (litM [':'] p.2).flatMap (fun r1 =>
      (digit2M r1).map (fun q => ((p.1, q.1), q.2))))

/-- Captured groups of `REGEX_DATE_CASE_5`. -/
structure Case5Groups where
  day1 : Nat
  mon1 : String
  h1 : Nat
  m1 : Nat
  day2 : Nat
  mon2 : String
  h2 : Nat
  m2 : Nat
deriving DecidableEq, Repr

/-- Captured groups of `REGEX_DATE_CASE_4`. -/
structure Case4Groups where
  day : Nat
  mon : String
  year : Nat
  h : Nat
  m : Nat
deriving DecidableEq, Repr

/-- Captured groups of `REGEX_DATE_CASE_3`. -/
structure Case3Groups where
  day : Nat
  mon : String
  year : Nat
deriving DecidableEq, Repr

/-- `REGEX_DATE_CASE_5 = du (\d{1,2}) ([a-zéû\.]+)\.? (\d{2}:\d{2}) au
(\d{1,2}) ([a-zéû\.]+)\.? (\d{2}:\d{2})` anchored at this position. -/
def case5At (cs : List Char) : List (Case5Groups × List Char) :=
  (litM ['d', 'u', ' '] cs).flatMap (fun r0 =>
  (digit12M r0).flatMap (fun p1 =>
  (litM [' '] p1.2).flatMap (fun r1 =>
  (wordPlusM r1).flatMap (fun w1 =>
  (dotOptM w1.2).flatMap (fun r2 =>
  (litM [' '] r2).flatMap (fun r3 =>
  (time22M r3).flatMap (fun t1 =>
  (litM [' ', 'a', 'u', ' '] t1.2).flatMap (fun r4 =>
  (digit12M r4).flatMap (fun p2 =>
  (litM [' '] p2.2).flatMap (fun r5 =>
  (wordPlusM r5).flatMap (fun w2 =>
  (dotOptM w2.2).flatMap (fun r6 =>
  (litM [' '] r6).flatMap (fun r7 =>
  (time22M r7).map (fun t2 =>
    (⟨p1.1, String.mk w1.1, t1.1.1, t1.1.2,
      p2.1, String.mk w2.1, t2.1.1, t2.1.2⟩, t2.2)))))))))))))))

/-- The capturing suffix of `REGEX_DATE_CASE_4 =
(?:[a-zéû\.]+)?\s*(\d{1,2}) ([a-zéû\.]+) (\d{4}) à (\d{2}:\d{2})` anchored at
this position.  The leading optional non-capturing word and `\s*` are not
modelled: they can only extend a match to the left over word characters and
whitespace (never over a digit), so they change neither whether some match
exists nor the captured groups of the leftmost match. -/
def case4At (cs : List Char) : List (Case4Groups × List Char) :=
  (digit12M cs).flatMap (fun p1 =>
  (litM [' '] p1.2).flatMap (fun r1 =>
  (wordPlusM r1).flatMap (fun w1 =>
  (litM [' '] w1.2).flatMap (fun r2 =>
  (digit4M r2).flatMap (fun y =>
  (litM [' ', 'à', ' '] y.2).flatMap (fun r3 =>
  (time22M r3).map (fun t =>
    (⟨p1.1, String.mk w1.1, y.1, t.1.1, t.1.2⟩, t.2))))))))

/-- `REGEX_DATE_CASE_3 = (\d{1,2})\s+([a-zéû\.]+)\s+(\d{4})` anchored here. -/
def case3At (cs : List Char) : List (Case3Groups × List Char) :=
  (digit12M cs).flatMap (fun p1 =>
  (spacesPlusM p1.2).flatMap (fun r1 =>
  (wordPlusM r1).flatMap (fun w1 =>
  (spacesPlusM w1.2).flatMap (fun r2 =>
  (digit4M r2).map (fun y =>
    (⟨p1.1, String.mk w1.1, y.1⟩, y.2))))))

/-- `REGEX_DATE_CASE_6 = (demain|lundi|...|dimanche)\s*à\s*(\d{1,2}:\d{2})`
anchored at this position; the alternation is tried in `WEEKDAYS` insertion
order, as `"|".join(WEEKDAYS.keys())` builds it. -/
def case6At (cs : List Char) : List ((String × Nat × Nat) × List Char) :=
  (WEEKDAYS.map Prod.fst).flatMap (fun n =>
    (litM n.data cs).flatMap (fun r0 =>
    (spacesStarM r0).flatMap (fun r1 =>
    (litM ['à'] r1).flatMap (fun r2 =>
    (spacesStarM r2).flatMap (fun r3 =>
    (time12M r3).map (fun q => ((n, q.1.1, q.1.2), q.2)))))))

/-- `REGEX_TIME_CASE = (\d{1,2}:\d{2})\s*à\s*(\d{1,2}:\d{2})` anchored here. -/
def timeCaseAt (cs : List Char) : List (((Nat × Nat) × Nat × Nat) × List Char) :=
  (time12M cs).flatMap (fun t1 =>
  (spacesStarM t1.2).flatMap (fun r1 =>
  (litM ['à'] r1).flatMap (fun r2 =>
  (spacesStarM r2).flatMap (fun r3 =>
  (time12M r3).map (fun t2 => ((t1.1, t2.1), t2.2))))))

/-- `re.search`: try each start position left to right, take the first
successful match (with the engine's first backtracking choice). -/
def searchPos (f : List Char → List (α × List Char)) : List Char → Option α
  | [] => ((f []).map Prod.fst).head?
  | c :: r =>
    match ((f (c :: r)).map Prod.fst).head? with
    | some a => some a
    | none => searchPos f r

def searchCase5 (cs : List Char) : Option Case5Groups := searchPos case5At cs

def searchCase4 (cs : List Char) : Option Case4Groups := searchPos case4At cs

def searchCase3 (cs : List Char) : Option Case3Groups := searchPos case3At cs

def searchCase6 (cs : List Char) : Option (String × Nat × Nat) :=
  searchPos case6At cs

def searchTimeCase (cs : List Char) : Option ((Nat × Nat) × Nat × Nat) :=
  searchPos timeCaseAt cs

/-! ## The phrase resolver `parse_event_date` -/

/-- `datetime.strptime(f"{day} {month_en} {year} {time}", "%d %B %Y %H:%M")`:
the month name must be an English month name (C locale), the day must be a
real day of that month, hour 00-23, minute 00-59; any violation raises
`ValueError`, which the caller catches — modelled as `none`. -/
def strptimeDMYHM (d : Nat) (monEn : String) (y h mi : Nat) : Option DateTime :=
  match monthEnToNum monEn with
  | none => none
  | some mo =>
    if 1 ≤ d && d ≤ daysInMonth y mo && h ≤ 23 && mi ≤ 59 then
      some ⟨⟨y, mo, d⟩, h, mi⟩
    else none

/-- `datetime.strptime(f"{day} {month_en} {year}", "%d %B %Y").date()`. -/
def strptimeDMY (d : Nat) (monEn : String) (y : Nat) : Option Date :=
  match monthEnToNum monEn with
  | none => none
  | some mo =>
    if 1 ≤ d && d ≤ daysInMonth y mo then some ⟨y, mo, d⟩ else none

/-- `dt.replace(year=y)`: raises (modelled `none`) when the day does not
exist in the new year (Feb 29 of a leap year moved to a common year). -/
def replaceYear (dt : DateTime) (y : Nat) : Option DateTime :=
  if dt.date.day ≤ daysInMonth y dt.date.month then
    some ⟨⟨y, dt.date.month, dt.date.day⟩, dt.hour, dt.minute⟩
  else none

/-- Python `%` on a possibly negative difference with modulus 7
(`Int.emod` is non-negative for a positive modulus, like Python). -/
def pyMod7 (z : Int) : Nat := (z % 7).toNat

/-- Body of case 5 (`du 18 déc. 20:00 au 22 déc. 03:00`), lines 192-214 of
`src/main.py`: resolve both endpoints in the reference year, move the end
one year forward when it falls before the start, then move the start one
year forward when it falls before the reference instant.  Any `ValueError`
inside the `try` block yields `(None, None)`, i.e. `none`. -/
def case5resolve (g : Case5Groups) (refDate : DateTime) : Option (DateTime × DateTime) :=
  let year := refDate.date.year
  match strptimeDMYHM g.day1 (frMonth g.mon1) year g.h1 g.m1,
        strptimeDMYHM g.day2 (frMonth g.mon2) year g.h2 g.m2 with
  | some s, some e =>
    match (if dtLt e s then replaceYear e (year + 1) else some e) with
    | none => none
    | some e1 =>
      match (if dtLt s refDate then replaceYear s (year + 1) else some s) with
      | none => none
      | some s1 => some (s1, e1)
  | _, _ => none

/-- Body of case 4 (`Vendredi 19 septembre 2025 à 21:00`), lines 217-229. -/
def case4resolve (g : Case4Groups) : Option (DateTime × DateTime) :=
  match strptimeDMYHM g.day (frMonth g.mon) g.year g.h g.m with
  | some s => some (s, s)
  | none => none

/-- Body of case 6 (`demain à HH:MM` / `<weekday> à HH:MM`), lines 233-246.
The `datetime.combine(...).replace(hour=..., minute=...)` call is NOT inside
a `try` block: an out-of-range hour or minute raises `ValueError`
(`Except.error ()`). -/
def case6resolve (wdName : String) (h mi : Nat) (refDate : DateTime) :
    Except Unit (Option (DateTime × DateTime)) :=
  let eventDate :=
    if wdName = "demain" then succDay refDate.date
    else addDays refDate.date
      (pyMod7 (((WEEKDAYS.lookup wdName).getD 0) - (weekday refDate.date : Int)))
  if h ≤ 23 && mi ≤ 59 then
    .ok (some (⟨eventDate, h, mi⟩, ⟨eventDate, h, mi⟩))
  else .error ()

/-- Lines 285-296: place the two clock times of `REGEX_TIME_CASE` on the
resolved event date and wrap the end overnight when `end <= start`.  The
two `replace(hour=..., minute=...)` calls are not guarded by a `try`, so an
out-of-range value raises. -/
def bottomResolve (d : Date) (sh sm eh em : Nat) :
    Except Unit (Option (DateTime × DateTime)) :=
  if sh ≤ 23 && sm ≤ 59 then
    if eh ≤ 23 && em ≤ 59 then
      let s : DateTime := ⟨d, sh, sm⟩
      let e0 : DateTime := ⟨d, eh, em⟩
      .ok (some (s, if dtLe e0 s then ⟨succDay d, eh, em⟩ else e0))
    else .error ()
  else .error ()

/-- Lines 275-279: the first `WEEKDAYS` entry whose name occurs in the text
and whose number is strictly positive (so `demain` and `lundi` are skipped). -/
def weekdayInText (cs : List Char) : Option Int :=
  WEEKDAYS.findSome? (fun p =>
    if containsSub p.1.data cs && decide (0 < p.2) then some p.2 else none)

/-- The resolver `parse_event_date(date_text, ref_date)` of `src/main.py`
(lines 173-296).  `Except.error ()` models an uncaught exception escaping the
function; `Except.ok none` models the `(None, None)` return. -/
def parse_event_date (dateText : String) (refDate : DateTime) :
    Except Unit (Option (DateTime × DateTime)) :=
  let cs := (stripWs dateText.data).map pyLower
  match searchCase5 cs with
  | some g => .ok (case5resolve g refDate)
  | none =>
    match searchCase4 cs with
    | some g => .ok (case4resolve g)
    | none =>
      match searchCase6 cs with
      | some g => case6resolve g.1 g.2.1 g.2.2 refDate
      | none =>
        match searchTimeCase cs with
        | none => .ok none
        | some t =>
          let d0 :=
            if containsSub ['d', 'e', 'm', 'a', 'i', 'n'] cs then
              succDay refDate.date
            else refDate.date
          let eventDate :=
            match searchCase3 cs with
            | some g3 =>
              match strptimeDMY g3.day (frMonth g3.mon) g3.year with
              | some d => d
              | none => d0
            | none =>
              match weekdayInText cs with
              | some wdn =>
                addDays refDate.date (pyMod7 (wdn - (weekday refDate.date : Int)))
              | none => d0
          bottomResolve eventDate t.1.1 t.1.2 t.2.1 t.2.2

/-! ## The scraping pipeline

The browser/DOM layer is abstracted as oracles, as the specification's
external collaborators: `pageOracle` gives the `href` attributes found on a
keyword's search page (`page.query_selector_all` + `get_attribute`, which
may yield `None`), `detail` gives the raw extracted fragments of one event
page (`_get_event_title` / `_get_event_date` / `_get_event_location` /
`_get_event_description` / `_get_event_banner_image`, keyed by the page
URL; `none` models a failed `page.goto`). -/

/-- Raw fragments extracted from one event page. -/
structure Fragments where
  title : String
  dateLine : String
  location : String
  description : String
  banner : Option String
deriving DecidableEq, Repr

/-- The `extracted_info` dict built by `_parse_event_page` (lines 706-718).
The Python values `""` and `None` for `start_dt`/`end_dt` are both falsy and
are modelled as `none`; the `type` key is named `etype` here. -/
structure EventInfo where
  date : String
  start_dt : Option DateTime
  end_dt : Option DateTime
  title : String
  location : String
  description_short : String
  description_long : String
  image : String
  link : String
  cost : String
  etype : String
deriving DecidableEq, Repr

/-- Python `x or "not found"` on a string. -/
def orNotFound (s : String) : String := if s = "" then "not found" else s

/-- Python `str.capitalize()` (first character upper, rest lower; inputs
here are lower-case French weekday names). -/
def pyCapitalize (s : String) : String :=
  match s.data with
  | [] => ""
  | c :: r =>
    String.mk ((if 'a' ≤ c && c ≤ 'z' then Char.ofNat (c.toNat - 32) else c)
      :: r.map pyLower)

/-- `strftime("%H...%M")` zero padding. -/
def pad2 (n : Nat) : String := if n < 10 then "0" ++ toString n else toString n

/-- Line 701-704: `f"{weekday_fr} - {start_time} à {end_time}"` where
`weekday_fr = FR_WEEKDAY[start_dt.strftime("%A").lower()].capitalize()`.
`weekday` is always in 0..6, so the `FR_WEEKDAY` lookup cannot fail. -/
def dateLineRewrite (s e : DateTime) : String :=
  pyCapitalize ((FR_WEEKDAY.lookup (strftimeWeekdayName (weekday s.date))).getD "")
    ++ " - " ++ pad2 s.hour ++ "h" ++ pad2 s.minute
    ++ " à " ++ pad2 e.hour ++ "h" ++ pad2 e.minute

/-- `_parse_event_page` (lines 680-720), with the DOM extraction results
supplied as `frag`.  `frag = none` models a failed `page.goto` (the method
returns `None`).  `parse_event_date` is called with its default reference
`datetime.now()`, passed here explicitly as `now`; an exception escaping it
propagates (there is no `try` around the call). -/
def parse_event_page (frag : Option Fragments) (eventUrl : String)
    (now : DateTime) : Except Unit (Option EventInfo) :=
  match frag with
  | none => .ok none
  | some f =>
    let afterDate : Except Unit (String × Option DateTime × Option DateTime) :=
      if f.dateLine ≠ "" then
        match parse_event_date f.dateLine now with
        | .error u => .error u
        | .ok none => .ok (f.dateLine, none, none)
        | .ok (some (s, e)) => .ok (dateLineRewrite s e, some s, some e)
      else .ok (f.dateLine, none, none)
    match afterDate with
    | .error u => .error u
    | .ok (dl, sOpt, eOpt) =>
      .ok (some
        { date := dl, start_dt := sOpt, end_dt := eOpt,
          title := orNotFound f.title, location := orNotFound f.location,
          description_short := orNotFound f.description,
          description_long := orNotFound f.description,
          image := match f.banner with | some b => orNotFound b | none => "not found",
          link := eventUrl, cost := "not found", etype := "not found" })

/-- Python `all(info.values())`: every dict value is truthy (non-empty
string, non-`None` datetime). -/
def allValues (i : EventInfo) : Bool :=
  i.date ≠ "" && i.start_dt.isSome && i.end_dt.isSome && i.title ≠ "" &&
    i.location ≠ "" && i.description_short ≠ "" && i.description_long ≠ "" &&
    i.image ≠ "" && i.link ≠ "" && i.cost ≠ "" && i.etype ≠ ""

/-- `_filter_event_by_date` (lines 722-728): truthiness of
`not (start_date and end_date)` and of
`start_dt and start_date <= start_dt <= end_date`. -/
def filter_event_by_date (startDt : Option DateTime)
    (startDate endDate : Option DateTime) : Bool :=
  match startDate, endDate with
  | some sd, some ed =>
    match startDt with
    | none => false
    | some s => dtLe sd s && dtLe s ed
  | _, _ => true

/-- Loop body of `_extract_event_links` (lines 557-564); the accumulator is
`(event_links, seen)`. -/
def extractStep (url : String) (acc : List String × List String)
    (h : Option String) : List String × List String :=
  match h with
  | none => acc
  | some href =>
    if href = "" || !(containsSub ['e', 'v', 'e', 'n', 't', 's'] href.data) ||
        containsSub url.data href.data then acc
    else
      let clean := String.mk (href.data.takeWhile (fun c => c ≠ '?'))
      if acc.2.contains clean then acc
      else (acc.1 ++ [clean], acc.2 ++ [clean])

/-- `_extract_event_links` (lines 551-565): returns the fresh cleaned links
and the updated `self.seen` (modelled as a list used only for membership). -/
def extract_event_links (hrefs : List (Option String)) (url : String)
    (seen : List String) : List String × List String :=
  hrefs.foldl (extractStep url) ([], seen)

/-- The per-candidate loop of `scrape` (lines 746-751): visit each link,
keep the record when every field is truthy and the window filter accepts. -/
def scrapeLoop (url : String) (detail : String → Option Fragments)
    (now : DateTime) (startDate endDate : Option DateTime) :
    List String → Except Unit (List EventInfo)
  | [] => .ok []
  | l :: ls =>
    match parse_event_page (detail (url ++ l)) (url ++ l) now with
    | .error u => .error u
    | .ok none => scrapeLoop url detail now startDate endDate ls
    | .ok (some info) =>
      match scrapeLoop url detail now startDate endDate ls with
      | .error u => .error u
      | .ok rest =>
        if allValues info then
          if filter_event_by_date info.start_dt startDate endDate then
            .ok (info :: rest)
          else .ok rest
        else .ok rest

/-- `scrape` (lines 733-752), navigation and scrolling abstracted away. -/
def scrape (url : String) (hrefs : List (Option String))
    (detail : String → Option Fragments) (now : DateTime)
    (startDate endDate : Option DateTime) (seen : List String) :
    Except Unit (List EventInfo × List String) :=
  let p := extract_event_links hrefs url seen
  match scrapeLoop url detail now startDate endDate p.1 with
  | .error u => .error u
  | .ok evs => .ok (evs, p.2)

/-- Python dict assignment `all_results[keyword] = events`: replace the
value in place when the key exists, append otherwise. -/
def dictSet (d : List (String × List EventInfo)) (k : String)
    (v : List EventInfo) : List (String × List EventInfo) :=
  if d.any (fun p => p.1 = k) then
    d.map (fun p => if p.1 = k then (k, v) else p)
  else d ++ [(k, v)]

/-- The keyword loop of `scrape_multiple` (lines 754-766). -/
def scrapeMultipleGo (url : String) (pageOracle : String → List (Option String))
    (detail : String → Option Fragments) (now : DateTime)
    (startDate endDate : Option DateTime) :
    List String → List (String × List EventInfo) → List String →
    Except Unit (List (String × List EventInfo) × List String)
  | [], acc, seen => .ok (acc, seen)
  | k :: ks, acc, seen =>
    match scrape url (pageOracle k) detail now startDate endDate seen with
    | .error u => .error u
    | .ok (evs, seen2) =>
      scrapeMultipleGo url pageOracle detail now startDate endDate ks
        (dictSet acc k evs) seen2

/-- `scrape_multiple` (lines 754-766): note there is no validation of
`start_date`/`end_date` whatsoever before the keyword loop begins. -/
def scrape_multiple (url : String) (keywords : List String)
    (pageOracle : String → List (Option String))
    (detail : String → Option Fragments) (now : DateTime)
    (startDate endDate : Option DateTime) :
    Except Unit (List (String × List EventInfo) × List String) :=
  scrapeMultipleGo url pageOracle detail now startDate endDate keywords [] []

/-- `chain.from_iterable(resultados.values())` (line 930). -/
def combinedEvents (results : List (String × List EventInfo)) : List EventInfo :=
  (results.map Prod.snd).flatten

/-- The sort key comparison of `events.sort(key=lambda x: x.get("start_dt", ""))`
(line 931).  Python would raise `TypeError` when comparing the `""` of an
unresolved record with a `datetime`; that comparison is unreachable because
every record surviving `allValues` has a resolved start (proved below), so
the `none` cases here are an arbitrary model choice (`none` first). -/
def optStartLe (a b : Option DateTime) : Bool :=
  match a, b with
  | some x, some y => dtLe x y
  | none, _ => true
  | some _, none => false

def eventKeyLe (a b : EventInfo) : Bool := optStartLe a.start_dt b.start_dt

/-- Stable insertion used to model Python's stable `list.sort`: the new
element goes after every element whose key is `<=` its key. -/
def insertEv (e : EventInfo) : List EventInfo → List EventInfo
  | [] => [e]
  | x :: xs => if eventKeyLe x e then x :: insertEv e xs else e :: x :: xs

/-- Python `list.sort` (stable, ascending by key) as a left fold of stable
insertions in discovery order. -/
def sortEvents (es : List EventInfo) : List EventInfo :=
  es.foldl (fun acc e => insertEv e acc) []

/-! ## Spec-side definition, for the refinement claim about the window filter -/

/-- Modelled from the spec's words (§4.3 WindowFilter):
`keep(resolved, window)` with `window` absent ↦ true; `window` present and
`resolved` absent ↦ false; both present ↦ `window.from <= resolved.start <=
window.to`, inclusive on both ends, only the start tested. -/
def windowKeepSpec (resolvedStart : Option DateTime)
    (window : Option (DateTime × DateTime)) : Bool :=
  match window with
  | none => true
  | some w =>
    match resolvedStart with
    | none => false
    | some s => dtLe w.1 s && dtLe s w.2

/-! ## Order properties of the Python comparisons -/

theorem dateLt_iff (a b : Date) : dateLt a b = true ↔
    (a.year < b.year ∨ (a.year = b.year ∧
      (a.month < b.month ∨ (a.month = b.month ∧ a.day < b.day)))) := by
  simp [dateLt]

theorem dtLt_iff (a b : DateTime) : dtLt a b = true ↔
    (dateLt a.date b.date = true ∨ (a.date = b.date ∧
      (a.hour < b.hour ∨ (a.hour = b.hour ∧ a.minute < b.minute)))) := by
  simp [dtLt]

theorem dtLe_iff (a b : DateTime) : dtLe a b = true ↔
    (dtLt a b = true ∨ a = b) := by
  simp [dtLe]

theorem dtLe_refl (a : DateTime) : dtLe a a = true := by
  simp [dtLe]

theorem dtLe_total (a b : DateTime) : dtLe a b = true ∨ dtLe b a = true := by
  rcases a with ⟨⟨ay, am, ad⟩, ah, ami⟩
  rcases b with ⟨⟨by', bm, bd⟩, bh, bmi⟩
  simp [dtLe, dtLt, dateLt, Date.mk.injEq, DateTime.mk.injEq]
  omega

theorem dtLe_trans {a b c : DateTime} (h1 : dtLe a b = true)
    (h2 : dtLe b c = true) : dtLe a c = true := by
  rcases a with ⟨⟨ay, am, ad⟩, ah, ami⟩
  rcases b with ⟨⟨by', bm, bd⟩, bh, bmi⟩
  rcases c with ⟨⟨cy, cm, cd⟩, ch, cmi⟩
  simp only [dtLe, dtLt, dateLt, Date.mk.injEq, DateTime.mk.injEq,
    Bool.or_eq_true, Bool.and_eq_true, decide_eq_true_eq, beq_iff_eq] at h1 h2 ⊢
  omega

theorem dtLe_lt_asymm {a b : DateTime} (h1 : dtLe a b = true)
    (h2 : dtLt b a = true) : False := by
  rcases a with ⟨⟨ay, am, ad⟩, ah, ami⟩
  rcases b with ⟨⟨by', bm, bd⟩, bh, bmi⟩
  simp only [dtLe, dtLt, dateLt, Date.mk.injEq, DateTime.mk.injEq,
    Bool.or_eq_true, Bool.and_eq_true, decide_eq_true_eq, beq_iff_eq] at h1 h2
  omega

theorem optStartLe_total (a b : Option DateTime) :
    optStartLe a b = true ∨ optStartLe b a = true := by
  match a, b with
  | none, _ => left; simp [optStartLe]
  | some x, none => right; simp [optStartLe]
  | some x, some y => simpa [optStartLe] using dtLe_total x y

theorem optStartLe_trans {a b c : Option DateTime}
    (h1 : optStartLe a b = true) (h2 : optStartLe b c = true) :
    optStartLe a c = true := by
  match a, b, c with
  | none, _, _ => simp [optStartLe]
  | some x, none, _ => simp [optStartLe] at h1
  | some x, some y, none => simp [optStartLe] at h2
  | some x, some y, some z =>
    simp only [optStartLe] at h1 h2 ⊢
    exact dtLe_trans h1 h2

/-- The ordering relation of the final sort, as a proposition. -/
def EvLe (a b : EventInfo) : Prop := eventKeyLe a b = true

theorem evLe_total (a b : EventInfo) : EvLe a b ∨ EvLe b a :=
  optStartLe_total a.start_dt b.start_dt

theorem evLe_trans {a b c : EventInfo} (h1 : EvLe a b) (h2 : EvLe b c) :
    EvLe a c := optStartLe_trans h1 h2

/-! ## The final sort is a stable ascending sort -/

theorem insertEv_perm (e : EventInfo) (l : List EventInfo) :
    List.Perm (insertEv e l) (e :: l) := by
  induction l with
  | nil => simp [insertEv]
  | cons x xs ih =>
    simp only [insertEv]
    by_cases h : eventKeyLe x e = true
    · simp only [h, if_pos]
      exact ((ih.cons x).trans (List.Perm.swap e x xs)).symm.symm
    · simp [h]

theorem mem_insertEv {a e : EventInfo} {l : List EventInfo}
    (h : a ∈ insertEv e l) : a = e ∨ a ∈ l := by
  have := (insertEv_perm e l).mem_iff.mp h
  simpa using this

theorem insertEv_sorted (e : EventInfo) (l : List EventInfo)
    (h : List.Pairwise EvLe l) : List.Pairwise EvLe (insertEv e l) := by
  induction l with
  | nil => simp [insertEv, List.Pairwise]
  | cons x xs ih =>
    rcases List.pairwise_cons.mp h with ⟨hx, hxs⟩
    by_cases hc : eventKeyLe x e = true
    · simp only [insertEv, hc, if_pos]
      refine List.pairwise_cons.mpr ⟨?_, ih hxs⟩
      intro a ha
      rcases mem_insertEv ha with rfl | ha2
      · exact hc
      · exact hx a ha2
    · simp only [insertEv, hc, if_neg, Bool.false_eq_true, not_false_iff]
      refine List.pairwise_cons.mpr ⟨?_, h⟩
      intro a ha
      have hex : EvLe e x := by
        rcases evLe_total x e with h1 | h1
        · exact absurd h1 hc
        · exact h1
      rcases ha with _ | ha2
      · exact hex
      · exact evLe_trans hex (hx a (by assumption))

theorem sortFoldAux_perm (es acc : List EventInfo) :
    List.Perm (es.foldl (fun a e => insertEv e a) acc) (acc ++ es) := by
  induction es generalizing acc with
  | nil => simp
  | cons e es ih =>
    simp only [List.foldl_cons]
    refine (ih (insertEv e acc)).trans ?_
    refine ((insertEv_perm e acc).append_right es).trans ?_
    exact List.perm_middle.symm

theorem sortFoldAux_sorted (es acc : List EventInfo)
    (h : List.Pairwise EvLe acc) :
    List.Pairwise EvLe (es.foldl (fun a e => insertEv e a) acc) := by
  induction es generalizing acc with
  | nil => simpa using h
  | cons e es ih =>
    simp only [List.foldl_cons]
    exact ih (insertEv e acc) (insertEv_sorted e acc h)

theorem sortEvents_perm (es : List EventInfo) :
    List.Perm (sortEvents es) es := by
  simpa [sortEvents] using sortFoldAux_perm es []

theorem sortEvents_sorted (es : List EventInfo) :
    List.Pairwise EvLe (sortEvents es) :=
  sortFoldAux_sorted es [] (by simp)

/-! ## Calendar arithmetic -/

theorem daysInMonth_pos (y m : Nat) (h1 : 1 ≤ m) (h2 : m ≤ 12) :
    1 ≤ daysInMonth y m := by
  interval_cases m <;> simp only [daysInMonth] <;> (try split_ifs) <;> omega

theorem dbm_succ (y m : Nat) (h1 : 1 ≤ m) (h2 : m ≤ 11) :
    daysBeforeMonth y (m + 1) = daysBeforeMonth y m + daysInMonth y m := by
  interval_cases m <;> simp only [daysBeforeMonth, daysInMonth] <;>
    (try split_ifs) <;> omega

set_option maxHeartbeats 1000000 in
theorem dby_succ (y : Nat) (hy : 1 ≤ y) :
    daysBeforeYear (y + 1) =
      daysBeforeYear y + (if isLeap y = true then 366 else 365) := by
  obtain ⟨n, rfl⟩ : ∃ n, y = n + 1 := ⟨y - 1, by omega⟩
  have e4 := Nat.succ_div n 4
  have e100 := Nat.succ_div n 100
  have e400 := Nat.succ_div n 400
  simp only [Nat.dvd_iff_mod_eq_zero] at e4 e100 e400
  have le1 : n / 100 ≤ n / 4 := Nat.div_le_div_left (by norm_num) (by norm_num)
  have le2 : n / 400 ≤ n / 100 := Nat.div_le_div_left (by norm_num) (by norm_num)
  simp only [daysBeforeYear, Nat.add_sub_cancel, isLeap, Bool.or_eq_true,
    Bool.and_eq_true, beq_iff_eq, bne_iff_ne, ne_eq]
  rw [e4, e100, e400]
  split_ifs <;> omega

theorem validDate_mk (y m dd : Nat) :
    Date.ValidDate ⟨y, m, dd⟩ ↔ 1 ≤ m ∧ m ≤ 12 ∧ 1 ≤ dd ∧ dd ≤ daysInMonth y m :=
  Iff.rfl

theorem succDay_valid (d : Date) (hv : d.ValidDate) : (succDay d).ValidDate := by
  rcases d with ⟨y, m, dd⟩
  rw [validDate_mk] at hv
  obtain ⟨h1, h2, h3, h4⟩ := hv
  unfold succDay
  dsimp only
  split_ifs with hd hm
  · rw [validDate_mk]
    exact ⟨h1, h2, by omega, by omega⟩
  · rw [validDate_mk]
    have hp := daysInMonth_pos y (m + 1) (by omega) (by omega)
    exact ⟨by omega, by omega, by omega, hp⟩
  · rw [validDate_mk]
    have h31 : daysInMonth (y + 1) 1 = 31 := rfl
    exact ⟨by omega, by omega, by omega, by omega⟩

theorem succDay_year (d : Date) : d.year ≤ (succDay d).year := by
  rcases d with ⟨y, m, dd⟩
  unfold succDay
  split_ifs <;> simp

theorem toOrdinal_succDay (d : Date) (hv : d.ValidDate) (hy : 1 ≤ d.year) :
    toOrdinal (succDay d) = toOrdinal d + 1 := by
  rcases d with ⟨y, m, dd⟩
  obtain ⟨h1, h2, h3, h4⟩ := hv
  dsimp only at h1 h2 h3 h4 hy
  unfold succDay
  split_ifs with hd hm
  · simp only [toOrdinal]
    omega
  · dsimp only at hd hm
    have hdd : dd = daysInMonth y m := by omega
    simp only [toOrdinal]
    rw [dbm_succ y m h1 (by omega)]
    omega
  · dsimp only at hd hm
    have hm12 : m = 12 := by omega
    subst hm12
    simp only [daysInMonth] at hd h4
    have hdd : dd = 31 := by omega
    subst hdd
    simp only [toOrdinal]
    rw [dby_succ y hy]
    simp only [daysBeforeMonth]
    split_ifs <;> omega

theorem addDays_valid (d : Date) (hv : d.ValidDate) (n : Nat) :
    (addDays d n).ValidDate := by
  induction n with
  | zero => exact hv
  | succ n ih => exact succDay_valid _ ih

theorem addDays_year (d : Date) (n : Nat) : d.year ≤ (addDays d n).year := by
  induction n with
  | zero => exact le_refl _
  | succ n ih => exact le_trans ih (succDay_year _)

theorem toOrdinal_addDays (d : Date) (hv : d.ValidDate) (hy : 1 ≤ d.year)
    (n : Nat) : toOrdinal (addDays d n) = toOrdinal d + n := by
  induction n with
  | zero => rfl
  | succ n ih =>
    have hval := addDays_valid d hv n
    have hyr : 1 ≤ (addDays d n).year := le_trans hy (addDays_year d n)
    show toOrdinal (succDay (addDays d n)) = toOrdinal d + (n + 1)
    rw [toOrdinal_succDay _ hval hyr, ih]
    omega

theorem weekday_addDays (d : Date) (hv : d.ValidDate) (hy : 1 ≤ d.year)
    (n : Nat) : weekday (addDays d n) = (weekday d + n) % 7 := by
  unfold weekday
  rw [toOrdinal_addDays d hv hy n]
  omega

theorem weekday_lt7 (d : Date) : weekday d < 7 := by
  unfold weekday
  omega

theorem dateLt_succDay (d : Date) (hv : d.ValidDate) :
    dateLt d (succDay d) = true := by
  rcases d with ⟨y, m, dd⟩
  rw [validDate_mk] at hv
  unfold succDay
  dsimp only
  split_ifs with hd hm <;> simp [dateLt]

theorem dateLe_of_dateLt {a b : Date} (h : dateLt a b = true) :
    dateLe a b = true := by
  simp [dateLe, h]

theorem dateLe_refl (a : Date) : dateLe a a = true := by
  simp [dateLe]

theorem dateLe_trans {a b c : Date} (h1 : dateLe a b = true)
    (h2 : dateLe b c = true) : dateLe a c = true := by
  rcases a with ⟨ay, am, ad⟩
  rcases b with ⟨by', bm, bd⟩
  rcases c with ⟨cy, cm, cd⟩
  simp only [dateLe, dateLt, Date.mk.injEq, Bool.or_eq_true, Bool.and_eq_true,
    decide_eq_true_eq, beq_iff_eq] at h1 h2 ⊢
  omega

theorem dateLe_addDays (d : Date) (hv : d.ValidDate) (n : Nat) :
    dateLe d (addDays d n) = true := by
  induction n with
  | zero => exact dateLe_refl d
  | succ n ih =>
    have hval := addDays_valid d hv n
    exact dateLe_trans ih (dateLe_of_dateLt (dateLt_succDay _ hval))

/-! ## Properties of link extraction and deduplication -/

theorem string_append_cancel {u a b : String} (h : u ++ a = u ++ b) : a = b := by
  have hd := congrArg String.data h
  simp only [String.data_append] at hd
  have h2 := List.append_cancel_left hd
  cases a; cases b; exact congrArg String.mk h2

theorem string_append_inj (u : String) :
    Function.Injective (fun c : String => u ++ c) := by
  intro a b h
  exact string_append_cancel h

/-- One step of `_extract_event_links` either leaves the accumulator alone or
pushes one identifier, not seen before, onto both lists. -/
theorem extractStep_shape (url : String) (l s : List String) (h : Option String) :
    extractStep url (l, s) h = (l, s) ∨
      ∃ c, extractStep url (l, s) h = (l ++ [c], s ++ [c]) ∧ c ∉ s := by
  match h with
  | none => exact Or.inl rfl
  | some href =>
    simp only [extractStep]
    split_ifs with hcond hseen
    · exact Or.inl rfl
    · exact Or.inl rfl
    · refine Or.inr ⟨_, rfl, ?_⟩
      intro hmem
      exact hseen (by simpa using hmem)

theorem extractFold_inv (url : String) (hrefs : List (Option String))
    (s0 : List String) :
    ∀ (l s : List String), s = s0 ++ l → l.Nodup → (∀ c ∈ l, c ∉ s0) →
      ((hrefs.foldl (extractStep url) (l, s)).2 =
          s0 ++ (hrefs.foldl (extractStep url) (l, s)).1 ∧
        (hrefs.foldl (extractStep url) (l, s)).1.Nodup ∧
        ∀ c ∈ (hrefs.foldl (extractStep url) (l, s)).1, c ∉ s0) := by
  induction hrefs with
  | nil =>
    intro l s h1 h2 h3
    subst h1
    exact ⟨rfl, h2, h3⟩
  | cons h t ih =>
    intro l s h1 h2 h3
    simp only [List.foldl_cons]
    rcases extractStep_shape url l s h with heq | ⟨c, heq, hc⟩
    · rw [heq]; exact ih l s h1 h2 h3
    · rw [heq]
      subst h1
      have hcl : c ∉ l := fun hm => hc (by simp [hm])
      have hcs0 : c ∉ s0 := fun hm => hc (by simp [hm])
      refine ih (l ++ [c]) (s0 ++ l ++ [c]) (by simp) ?_ ?_
      · simp [List.nodup_append, h2, hcl]
      · intro x hx
        rcases List.mem_append.mp hx with hx | hx
        · exact h3 x hx
        · simp only [List.mem_singleton] at hx
          subst hx
          exact hcs0

theorem extractFold_mem_mono (url : String) (hrefs : List (Option String)) :
    ∀ (l s : List String) (c : String), c ∈ l →
      c ∈ (hrefs.foldl (extractStep url) (l, s)).1 := by
  induction hrefs with
  | nil => intro l s c hc; exact hc
  | cons h t ih =>
    intro l s c hc
    simp only [List.foldl_cons]
    rcases extractStep_shape url l s h with heq | ⟨d, heq, _⟩
    · rw [heq]; exact ih l s c hc
    · rw [heq]; exact ih _ _ c (by simp [hc])

/-- Acceptance condition of one raw `href` for identifier `c`
(lines 558-560: truthy, contains `"events"`, does not contain the base URL,
and strips to `c` at the first `?`). -/
def AcceptedHref (url : String) (h : Option String) (c : String) : Prop :=
  ∃ s, h = some s ∧ s ≠ "" ∧
    containsSub ['e', 'v', 'e', 'n', 't', 's'] s.data = true ∧
    containsSub url.data s.data = false ∧
    String.mk (s.data.takeWhile (fun ch => ch ≠ '?')) = c

theorem extractStep_accepted {url : String} {h : Option String} {c : String}
    (ha : AcceptedHref url h c) (l s : List String) (hc : c ∉ s) :
    extractStep url (l, s) h = (l ++ [c], s ++ [c]) := by
  obtain ⟨str, rfl, hne, hev, hurl, hclean⟩ := ha
  have hcon : s.contains c = false := by simpa using hc
  simp only [extractStep, hne, hev, hurl, hclean, hcon]
  simp [hne]

theorem extractFold_first_kept (url : String) (hrefs : List (Option String)) :
    ∀ (l s : List String) (c : String), c ∉ s →
      (∃ h ∈ hrefs, AcceptedHref url h c) →
      c ∈ (hrefs.foldl (extractStep url) (l, s)).1 := by
  induction hrefs with
  | nil => intro l s c _ hex; simp at hex
  | cons h t ih =>
    intro l s c hc hex
    simp only [List.foldl_cons]
    rcases hex with ⟨h', hmem, hacc⟩
    rcases List.mem_cons.mp hmem with rfl | hmem'
    · rw [extractStep_accepted hacc l s hc]
      exact extractFold_mem_mono url t _ _ c (by simp)
    · rcases extractStep_shape url l s h with heq | ⟨d, heq, _⟩
      · rw [heq]; exact ih l s c hc ⟨h', hmem', hacc⟩
      · rw [heq]
        by_cases hdc : d = c
        · subst hdc
          exact extractFold_mem_mono url t _ _ d (by simp)
        · refine ih _ _ c ?_ ⟨h', hmem', hacc⟩
          intro hmem2
          rcases List.mem_append.mp hmem2 with h2 | h2
          · exact hc h2
          · simp only [List.mem_singleton] at h2
            exact hdc h2.symm

/-- Summary of `_extract_event_links`: the returned links are fresh (none
was seen before), duplicate-free, and `seen` grows by exactly those links;
an identifier already seen is never returned again, and a fresh identifier
with an accepted raw `href` on the page is returned. -/
theorem extract_event_links_spec (hrefs : List (Option String)) (url : String)
    (seen : List String) :
    (extract_event_links hrefs url seen).2 =
        seen ++ (extract_event_links hrefs url seen).1 ∧
      (extract_event_links hrefs url seen).1.Nodup ∧
      (∀ c ∈ (extract_event_links hrefs url seen).1, c ∉ seen) := by
  have := extractFold_inv url hrefs seen [] (seen ++ []) rfl (by simp) (by simp)
  simpa [extract_event_links] using this

theorem extract_event_links_skips (hrefs : List (Option String)) (url : String)
    (seen : List String) (c : String) (hc : c ∈ seen) :
    c ∉ (extract_event_links hrefs url seen).1 := by
  intro hmem
  exact (extract_event_links_spec hrefs url seen).2.2 c hmem hc

theorem extract_event_links_keeps (hrefs : List (Option String)) (url : String)
    (seen : List String) (c : String) (hc : c ∉ seen)
    (hex : ∃ h ∈ hrefs, AcceptedHref url h c) :
    c ∈ (extract_event_links hrefs url seen).1 := by
  have := extractFold_first_kept url hrefs [] (seen ++ []) c (by simpa using hc) hex
  simpa [extract_event_links] using this

/-! ## Properties of record assembly and the per-keyword loop -/

theorem orNotFound_ne (s : String) : orNotFound s ≠ "" := by
  unfold orNotFound
  split_ifs with h
  · intro hc; simp at hc
  · exact h

theorem dateLineRewrite_ne (s e : DateTime) : dateLineRewrite s e ≠ "" := by
  unfold dateLineRewrite
  intro hc
  have := congrArg String.data hc
  simp [String.data_append] at this

/-- Anatomy of a successfully assembled record: its `link` is the page URL,
`title`/`location`/descriptions/image get the `"not found"` fallback, and
the date fields follow the three outcomes of the resolver. -/
theorem parse_event_page_some {frag : Option Fragments} {u : String}
    {now : DateTime} {i : EventInfo}
    (h : parse_event_page frag u now = .ok (some i)) :
    ∃ f, frag = some f ∧ i.link = u ∧
      i.title = orNotFound f.title ∧ i.location = orNotFound f.location ∧
      i.description_short = orNotFound f.description ∧
      i.description_long = orNotFound f.description ∧
      i.image ≠ "" ∧ i.cost = "not found" ∧ i.etype = "not found" ∧
      ((f.dateLine = "" ∧ i.start_dt = none ∧ i.end_dt = none ∧ i.date = "") ∨
       (f.dateLine ≠ "" ∧ parse_event_date f.dateLine now = .ok none ∧
         i.start_dt = none ∧ i.end_dt = none ∧ i.date = f.dateLine) ∨
       (∃ s e, f.dateLine ≠ "" ∧
         parse_event_date f.dateLine now = .ok (some (s, e)) ∧
         i.start_dt = some s ∧ i.end_dt = some e ∧
         i.date = dateLineRewrite s e)) := by
  match hf : frag with
  | none => simp [parse_event_page] at h
  | some f =>
    refine ⟨f, rfl, ?_⟩
    by_cases hdl : f.dateLine = ""
    · simp only [parse_event_page, hdl, ne_eq, not_true_eq_false, if_false,
        Except.ok.injEq, Option.some.injEq] at h
      subst h
      refine ⟨rfl, rfl, rfl, rfl, rfl, ?_, rfl, rfl, ?_⟩
      · cases hb : f.banner <;> simp [hb, orNotFound_ne]
      · exact Or.inl ⟨hdl, rfl, rfl, rfl⟩
    · match hp : parse_event_date f.dateLine now with
      | .error u' => simp [parse_event_page, hdl, hp] at h
      | .ok none =>
        simp only [parse_event_page, hdl, ne_eq, not_false_eq_true, if_true,
          hp, Except.ok.injEq, Option.some.injEq] at h
        subst h
        refine ⟨rfl, rfl, rfl, rfl, rfl, ?_, rfl, rfl, ?_⟩
        · cases hb : f.banner <;> simp [hb, orNotFound_ne]
        · exact Or.inr (Or.inl ⟨hdl, rfl, rfl, rfl, rfl⟩)
      | .ok (some (s, e)) =>
        simp only [parse_event_page, hdl, ne_eq, not_false_eq_true, if_true,
          hp, Except.ok.injEq, Option.some.injEq] at h
        subst h
        refine ⟨rfl, rfl, rfl, rfl, rfl, ?_, rfl, rfl, ?_⟩
        · cases hb : f.banner <;> simp [hb, orNotFound_ne]
        · exact Or.inr (Or.inr ⟨s, e, hdl, rfl, rfl, rfl, rfl⟩)

theorem scrapeLoop_props (url : String) (detail : String → Option Fragments)
    (now : DateTime) (sd ed : Option DateTime) :
    ∀ (ls : List String) (evs : List EventInfo),
      scrapeLoop url detail now sd ed ls = .ok evs →
      ((evs.map (fun e => e.link)).Sublist
          (ls.map (fun c => url ++ c)) ∧
        ∀ e ∈ evs, allValues e = true) := by
  intro ls
  induction ls with
  | nil =>
    intro evs h
    simp only [scrapeLoop, Except.ok.injEq] at h
    subst h
    exact ⟨by simp, by simp⟩
  | cons l t ih =>
    intro evs h
    simp only [scrapeLoop] at h
    match hpg : parse_event_page (detail (url ++ l)) (url ++ l) now with
    | .error u' => rw [hpg] at h; exact absurd h (by simp)
    | .ok none =>
      rw [hpg] at h
      rcases ih evs h with ⟨h1, h2⟩
      exact ⟨h1.trans (List.sublist_cons_self _ _), h2⟩
    | .ok (some info) =>
      rw [hpg] at h
      match hrec : scrapeLoop url detail now sd ed t with
      | .error u' => rw [hrec] at h; exact absurd h (by simp)
      | .ok rest =>
        rw [hrec] at h
        rcases ih rest hrec with ⟨h1, h2⟩
        have hlink : info.link = url ++ l :=
          (parse_event_page_some hpg).choose_spec.2.1
        by_cases hav : allValues info
        · simp only [hav, if_true] at h
          by_cases hfl : filter_event_by_date info.start_dt sd ed = true
          · rw [if_pos hfl] at h
            cases h
            constructor
            · simpa [hlink] using h1.cons₂ (url ++ l)
            · intro e he
              rcases List.mem_cons.mp he with rfl | he2
              · exact hav
              · exact h2 e he2
          · rw [if_neg hfl] at h
            cases h
            exact ⟨h1.trans (List.sublist_cons_self _ _), h2⟩
        · simp only [Bool.not_eq_true] at hav
          simp only [hav, Bool.false_eq_true, if_false] at h
          cases h
          exact ⟨h1.trans (List.sublist_cons_self _ _), h2⟩

theorem scrape_props (url : String) (hrefs : List (Option String))
    (detail : String → Option Fragments) (now : DateTime)
    (sd ed : Option DateTime) (seen : List String)
    (evs : List EventInfo) (seen2 : List String)
    (h : scrape url hrefs detail now sd ed seen = .ok (evs, seen2)) :
    ∃ fresh : List String,
      seen2 = seen ++ fresh ∧ fresh.Nodup ∧ (∀ c ∈ fresh, c ∉ seen) ∧
      ((evs.map (fun e => e.link)).Sublist
        (fresh.map (fun c => url ++ c))) ∧
      ∀ e ∈ evs, allValues e = true := by
  simp only [scrape] at h
  match hloop : scrapeLoop url detail now sd ed
      (extract_event_links hrefs url seen).1 with
  | .error u' => rw [hloop] at h; exact absurd h (by simp)
  | .ok evs' =>
    rw [hloop] at h
    simp only [Except.ok.injEq, Prod.mk.injEq] at h
    obtain ⟨rfl, rfl⟩ := h
    obtain ⟨hseen, hnd, hfreshnew⟩ := extract_event_links_spec hrefs url seen
    obtain ⟨hsub, hall⟩ := scrapeLoop_props url detail now sd ed _ _ hloop
    exact ⟨(extract_event_links hrefs url seen).1, hseen, hnd, hfreshnew, hsub, hall⟩

/-! ## Properties of the result dictionary and the keyword loop -/

theorem combinedEvents_cons (p : String × List EventInfo)
    (rest : List (String × List EventInfo)) :
    combinedEvents (p :: rest) = p.2 ++ combinedEvents rest := by
  simp [combinedEvents]

theorem mem_combinedEvents {e : EventInfo}
    {acc : List (String × List EventInfo)} :
    e ∈ combinedEvents acc ↔ ∃ p ∈ acc, e ∈ p.2 := by
  simp only [combinedEvents, List.mem_flatten, List.mem_map]
  constructor
  · rintro ⟨l, ⟨p, hp, rfl⟩, he⟩
    exact ⟨p, hp, he⟩
  · rintro ⟨p, hp, he⟩
    exact ⟨p.2, ⟨p, hp, rfl⟩, he⟩

theorem dictSet_cons_ne (k' : String) (w : List EventInfo)
    (rest : List (String × List EventInfo)) (k : String) (v : List EventInfo)
    (h : k' ≠ k) :
    dictSet ((k', w) :: rest) k v = (k', w) :: dictSet rest k v := by
  simp only [dictSet, List.any_cons, h, decide_False, Bool.false_or]
  by_cases hr : rest.any (fun p => decide (p.1 = k)) = true
  · simp [hr, h]
  · simp only [Bool.not_eq_true] at hr
    simp [hr]

theorem dictSet_mem {acc : List (String × List EventInfo)} {k : String}
    {v : List EventInfo} {p : String × List EventInfo}
    (h : p ∈ dictSet acc k v) : p ∈ acc ∨ p.2 = v := by
  simp only [dictSet] at h
  split_ifs at h with hany
  · rcases List.mem_map.mp h with ⟨q, hq, hqe⟩
    by_cases hqk : q.1 = k
    · rw [if_pos hqk] at hqe
      right; rw [hqe.symm]
    · rw [if_neg hqk] at hqe
      left; rw [hqe.symm]; exact hq
  · rcases List.mem_append.mp h with h2 | h2
    · exact Or.inl h2
    · simp only [List.mem_singleton] at h2
      right; rw [h2]

theorem dictSet_keys_nodup (acc : List (String × List EventInfo)) (k : String)
    (v : List EventInfo) (h : (acc.map Prod.fst).Nodup) :
    ((dictSet acc k v).map Prod.fst).Nodup := by
  simp only [dictSet]
  split_ifs with hany
  · have : (acc.map (fun p => if p.1 = k then (k, v) else p)).map Prod.fst =
        acc.map Prod.fst := by
      rw [List.map_map]
      apply List.map_congr_left
      intro p _
      by_cases hp : p.1 = k
      · simp [hp]
      · simp [hp]
    rw [this]
    exact h
  · have hknotin : k ∉ acc.map Prod.fst := by
      intro hmem
      rcases List.mem_map.mp hmem with ⟨p, hp, hpe⟩
      have : acc.any (fun p => decide (p.1 = k)) = true :=
        List.any_eq_true.mpr ⟨p, hp, by simp [hpe]⟩
      exact hany this
    rw [List.map_append]
    simp only [List.map_cons, List.map_nil]
    rw [List.nodup_append]
    refine ⟨h, by simp, ?_⟩
    intro a ha hmem
    simp only [List.mem_singleton] at hmem
    subst hmem
    exact hknotin ha

theorem combined_dictSet (acc : List (String × List EventInfo)) (k : String)
    (v : List EventInfo) (hk : (acc.map Prod.fst).Nodup) :
    ∃ A C B, combinedEvents acc = A ++ (C ++ B) ∧
      combinedEvents (dictSet acc k v) = A ++ (v ++ B) := by
  induction acc with
  | nil =>
    exact ⟨[], [], [], by simp [combinedEvents],
      by simp [combinedEvents, dictSet]⟩
  | cons p rest ih =>
    rcases p with ⟨k', w⟩
    by_cases hkk : k' = k
    · subst hkk
      have hnd := hk
      simp only [List.map_cons, List.nodup_cons] at hnd
      have hknotin : k' ∉ rest.map Prod.fst := hnd.1
      have hany : ((k', w) :: rest).any (fun p => decide (p.1 = k')) = true :=
        List.any_eq_true.mpr ⟨(k', w), by simp, by simp⟩
      have hrest : rest.map (fun p => if p.1 = k' then (k', v) else p) = rest := by
        have hid : rest.map (fun p => if p.1 = k' then (k', v) else p) =
            rest.map id := by
          apply List.map_congr_left
          intro q hq
          have hne : q.1 ≠ k' := by
            intro hqe
            exact hknotin (List.mem_map.mpr ⟨q, hq, hqe⟩)
          simp [hne]
        rw [hid, List.map_id]
      refine ⟨[], w, combinedEvents rest, by simp [combinedEvents_cons], ?_⟩
      simp only [dictSet, hany, if_true, List.map_cons, if_pos rfl]
      rw [hrest]
      simp [combinedEvents_cons]
    · rw [dictSet_cons_ne k' w rest k v hkk]
      have hnd := hk
      simp only [List.map_cons, List.nodup_cons] at hnd
      obtain ⟨A, C, B, h1, h2⟩ := ih hnd.2
      refine ⟨w ++ A, C, B, ?_, ?_⟩
      · rw [combinedEvents_cons, h1]
        simp
      · rw [combinedEvents_cons, h2]
        simp

theorem nodup_insert_middle {LA LC LB Lv : List String}
    (hnd : (LA ++ (LC ++ LB)).Nodup) (hv : Lv.Nodup)
    (hdisj : ∀ x ∈ Lv, x ∉ LA ∧ x ∉ LB) :
    (LA ++ (Lv ++ LB)).Nodup := by
  rw [List.nodup_append] at hnd ⊢
  obtain ⟨hA, hCB, hdAB⟩ := hnd
  rw [List.nodup_append] at hCB
  obtain ⟨hC, hB, hdCB⟩ := hCB
  refine ⟨hA, ?_, ?_⟩
  · rw [List.nodup_append]
    refine ⟨hv, hB, ?_⟩
    intro a ha hb
    exact (hdisj a ha).2 hb
  · intro a haA hmem
    rcases List.mem_append.mp hmem with hv2 | hb
    · exact (hdisj a hv2).1 haA
    · exact hdAB haA (List.mem_append.mpr (Or.inr hb))

theorem scrapeMultipleGo_inv (url : String)
    (pageOracle : String → List (Option String))
    (detail : String → Option Fragments) (now : DateTime)
    (sd ed : Option DateTime) :
    ∀ (ks : List String) (acc : List (String × List EventInfo))
      (seen : List String) (R : List (String × List EventInfo))
      (S : List String),
      scrapeMultipleGo url pageOracle detail now sd ed ks acc seen =
          .ok (R, S) →
      (acc.map Prod.fst).Nodup →
      (∀ p ∈ acc, ∀ e ∈ p.2, allValues e = true ∧
        ∃ c, c ∈ seen ∧ e.link = url ++ c) →
      ((combinedEvents acc).map (fun e => e.link)).Nodup →
      (((combinedEvents R).map (fun e => e.link)).Nodup ∧
        ∀ p ∈ R, ∀ e ∈ p.2, allValues e = true) := by
  intro ks
  induction ks with
  | nil =>
    intro acc seen R S h hkeys hmem hnd
    simp only [scrapeMultipleGo, Except.ok.injEq, Prod.mk.injEq] at h
    obtain ⟨rfl, rfl⟩ := h
    exact ⟨hnd, fun p hp e he => (hmem p hp e he).1⟩
  | cons k ks ih =>
    intro acc seen R S h hkeys hmem hnd
    simp only [scrapeMultipleGo] at h
    match hs : scrape url (pageOracle k) detail now sd ed seen with
    | .error u' => rw [hs] at h; exact absurd h (by simp)
    | .ok (evs, seen2) =>
      rw [hs] at h
      obtain ⟨fresh, hseen2, hfreshnd, hfreshnew, hsub, hall⟩ :=
        scrape_props _ _ _ _ _ _ _ _ _ hs
      refine ih (dictSet acc k evs) seen2 R S h
        (dictSet_keys_nodup acc k evs hkeys) ?_ ?_
      · intro p hp e he
        rcases dictSet_mem hp with hpacc | hpv
        · obtain ⟨h1, c, hc, h2⟩ := hmem p hpacc e he
          exact ⟨h1, c, by rw [hseen2]; exact List.mem_append.mpr (Or.inl hc),
            h2⟩
        · rw [hpv] at he
          refine ⟨hall e he, ?_⟩
          have hl : e.link ∈ fresh.map (fun c => url ++ c) :=
            hsub.subset (List.mem_map_of_mem _ he)
          obtain ⟨c, hcfresh, hcl⟩ := List.mem_map.mp hl
          exact ⟨c, by rw [hseen2]; exact List.mem_append.mpr (Or.inr hcfresh),
            hcl.symm⟩
      · obtain ⟨A, C, B, hdec, hdec2⟩ := combined_dictSet acc k evs hkeys
        rw [hdec2, List.map_append, List.map_append]
        rw [hdec, List.map_append, List.map_append] at hnd
        have hvnodup : (evs.map (fun e => e.link)).Nodup := by
          refine hsub.nodup ?_
          exact (List.nodup_map_iff (string_append_inj url)).mpr hfreshnd
        refine nodup_insert_middle hnd hvnodup ?_
        intro x hx
        obtain ⟨e, he, rfl⟩ := List.mem_map.mp hx
        have hl : e.link ∈ fresh.map (fun c => url ++ c) :=
          hsub.subset (List.mem_map_of_mem _ he)
        obtain ⟨c, hcfresh, hcl⟩ := List.mem_map.mp hl
        have hcore : ∀ y ∈ combinedEvents acc, y.link ≠ e.link := by
          intro y hy heq
          obtain ⟨p, hp, hyp⟩ := mem_combinedEvents.mp hy
          obtain ⟨_, c', hc', hyl⟩ := hmem p hp y hyp
          rw [hyl, ← hcl] at heq
          have : c' = c := string_append_cancel heq
          subst this
          exact hfreshnew c' hcfresh hc'
        constructor
        · intro hmemA
          obtain ⟨y, hyA, hye⟩ := List.mem_map.mp hmemA
          refine hcore y ?_ hye
          rw [hdec]
          exact List.mem_append.mpr (Or.inl hyA)
        · intro hmemB
          obtain ⟨y, hyB, hye⟩ := List.mem_map.mp hmemB
          refine hcore y ?_ hye
          rw [hdec]
          exact List.mem_append.mpr (Or.inr (List.mem_append.mpr (Or.inr hyB)))

theorem scrape_multiple_inv (url : String) (keywords : List String)
    (pageOracle : String → List (Option String))
    (detail : String → Option Fragments) (now : DateTime)
    (sd ed : Option DateTime) (R : List (String × List EventInfo))
    (S : List String)
    (h : scrape_multiple url keywords pageOracle detail now sd ed =
      .ok (R, S)) :
    ((combinedEvents R).map (fun e => e.link)).Nodup ∧
      ∀ p ∈ R, ∀ e ∈ p.2, allValues e = true :=
  scrapeMultipleGo_inv url pageOracle detail now sd ed keywords [] [] R S h
    (by simp) (by simp) (by simp [combinedEvents])

/-! ## A malformed window is not rejected: it just filters everything out -/

theorem filter_false_of_bad_window {sd ed : DateTime}
    (hbad : dtLt ed sd = true) (s : Option DateTime) :
    filter_event_by_date s (some sd) (some ed) = false := by
  match s with
  | none => rfl
  | some st =>
    simp only [filter_event_by_date]
    by_cases h1 : dtLe sd st = true
    · by_cases h2 : dtLe st ed = true
      · exact absurd (dtLe_lt_asymm (dtLe_trans h1 h2) hbad) (fun h => h)
      · simp only [Bool.not_eq_true] at h2
        simp [h2]
    · simp only [Bool.not_eq_true] at h1
      simp [h1]

theorem scrapeLoop_bad_window (url : String)
    (detail : String → Option Fragments) (now : DateTime) {sd ed : DateTime}
    (hbad : dtLt ed sd = true) :
    ∀ (ls : List String) (evs : List EventInfo),
      scrapeLoop url detail now (some sd) (some ed) ls = .ok evs →
      evs = [] := by
  intro ls
  induction ls with
  | nil =>
    intro evs h
    simp only [scrapeLoop, Except.ok.injEq] at h
    exact h.symm
  | cons l t ih =>
    intro evs h
    simp only [scrapeLoop] at h
    match hpg : parse_event_page (detail (url ++ l)) (url ++ l) now with
    | .error u' => rw [hpg] at h; exact absurd h (by simp)
    | .ok none => rw [hpg] at h; exact ih evs h
    | .ok (some info) =>
      rw [hpg] at h
      match hrec : scrapeLoop url detail now (some sd) (some ed) t with
      | .error u' => rw [hrec] at h; exact absurd h (by simp)
      | .ok rest =>
        rw [hrec] at h
        have hrest := ih rest hrec
        subst hrest
        have hfl := filter_false_of_bad_window hbad info.start_dt
        by_cases hav : allValues info = true
        · simp only [hav, hfl, if_true, Bool.false_eq_true, if_false,
            Except.ok.injEq] at h
          exact h.symm
        · simp only [Bool.not_eq_true] at hav
          simp only [hav, Bool.false_eq_true, if_false, Except.ok.injEq] at h
          exact h.symm

theorem scrape_bad_window (url : String) (hrefs : List (Option String))
    (detail : String → Option Fragments) (now : DateTime) {sd ed : DateTime}
    (hbad : dtLt ed sd = true) (seen : List String) (evs : List EventInfo)
    (seen2 : List String)
    (h : scrape url hrefs detail now (some sd) (some ed) seen =
      .ok (evs, seen2)) : evs = [] := by
  simp only [scrape] at h
  match hloop : scrapeLoop url detail now (some sd) (some ed)
      (extract_event_links hrefs url seen).1 with
  | .error u' => rw [hloop] at h; exact absurd h (by simp)
  | .ok evs' =>
    rw [hloop] at h
    simp only [Except.ok.injEq, Prod.mk.injEq] at h
    obtain ⟨rfl, rfl⟩ := h
    exact scrapeLoop_bad_window url detail now hbad _ _ hloop

theorem scrapeMultipleGo_bad_window (url : String)
    (pageOracle : String → List (Option String))
    (detail : String → Option Fragments) (now : DateTime) {sd ed : DateTime}
    (hbad : dtLt ed sd = true) :
    ∀ (ks : List String) (acc : List (String × List EventInfo))
      (seen : List String) (R : List (String × List EventInfo))
      (S : List String),
      scrapeMultipleGo url pageOracle detail now (some sd) (some ed) ks acc
          seen = .ok (R, S) →
      (∀ p ∈ acc, p.2 = ([] : List EventInfo)) →
      ∀ p ∈ R, p.2 = ([] : List EventInfo) := by
  intro ks
  induction ks with
  | nil =>
    intro acc seen R S h hacc
    simp only [scrapeMultipleGo, Except.ok.injEq, Prod.mk.injEq] at h
    obtain ⟨rfl, rfl⟩ := h
    exact hacc
  | cons k ks ih =>
    intro acc seen R S h hacc
    simp only [scrapeMultipleGo] at h
    match hs : scrape url (pageOracle k) detail now (some sd) (some ed) seen with
    | .error u' => rw [hs] at h; exact absurd h (by simp)
    | .ok (evs, seen2) =>
      rw [hs] at h
      have hevs : evs = [] := scrape_bad_window url _ detail now hbad seen evs seen2 hs
      subst hevs
      refine ih (dictSet acc k []) seen2 R S h ?_
      intro p hp
      rcases dictSet_mem hp with hpacc | hpv
      · exact hacc p hpacc
      · exact hpv

/-! ## Keep/drop behaviour for a single candidate -/

theorem allValues_assembled (f : Fragments) (u : String) (s e : DateTime) :
    allValues
      { date := dateLineRewrite s e, start_dt := some s, end_dt := some e,
        title := orNotFound f.title, location := orNotFound f.location,
        description_short := orNotFound f.description,
        description_long := orNotFound f.description,
        image := match f.banner with
          | some b => orNotFound b
          | none => "not found",
        link := u, cost := "not found", etype := "not found" } =
      decide (u ≠ "") := by
  have h1 := dateLineRewrite_ne s e
  have h2 := orNotFound_ne f.title
  have h3 := orNotFound_ne f.location
  have h4 := orNotFound_ne f.description
  have h5 : (match f.banner with
      | some b => orNotFound b
      | none => "not found") ≠ "" := by
    cases hb : f.banner <;> simp [orNotFound_ne]
  simp [allValues, h1, h2, h3, h4, h5]

theorem scrapeLoop_single (url : String) (detail : String → Option Fragments)
    (now : DateTime) (sd ed : Option DateTime) (l : String)
    (evs : List EventInfo)
    (h : scrapeLoop url detail now sd ed [l] = .ok evs) :
    (evs ≠ [] ↔ ∃ f s e, detail (url ++ l) = some f ∧ f.dateLine ≠ "" ∧
      parse_event_date f.dateLine now = .ok (some (s, e)) ∧
      url ++ l ≠ "" ∧ filter_event_by_date (some s) sd ed = true) := by
  match hd : detail (url ++ l) with
  | none =>
    simp only [scrapeLoop, hd, parse_event_page] at h
    simp only [Except.ok.injEq] at h
    subst h
    simp [hd]
  | some f =>
    by_cases hdl : f.dateLine = ""
    · simp only [scrapeLoop, hd, parse_event_page, hdl, ne_eq,
        not_true_eq_false, if_false] at h
      simp [allValues] at h
      subst h
      constructor
      · intro hc; exact absurd rfl hc
      · rintro ⟨f', s, e, hf', hdl', _⟩
        cases hf'
        exact absurd hdl hdl'
    · match hp : parse_event_date f.dateLine now with
      | .error u' =>
        simp only [scrapeLoop, hd, parse_event_page, hdl, ne_eq,
          not_false_eq_true, if_true, hp] at h
        exact absurd h (by simp)
      | .ok none =>
        simp only [scrapeLoop, hd, parse_event_page, hdl, ne_eq,
          not_false_eq_true, if_true, hp] at h
        simp [allValues] at h
        subst h
        constructor
        · intro hc; exact absurd rfl hc
        · rintro ⟨f', s, e, hf', _, hp', _⟩
          cases hf'
          rw [hp] at hp'
          exact absurd hp' (by simp)
      | .ok (some (s, e)) =>
        simp only [scrapeLoop, hd, parse_event_page, hdl, ne_eq,
          not_false_eq_true, if_true, hp] at h
        rw [allValues_assembled f (url ++ l) s e] at h
        by_cases hu : url ++ l = ""
        · simp only [hu, ne_eq, not_true_eq_false, decide_False,
            Bool.false_eq_true, if_false, Except.ok.injEq] at h
          subst h
          constructor
          · intro hc; exact absurd rfl hc
          · rintro ⟨f', s', e', hf', _, _, hu', _⟩
            exact absurd hu hu'
        · simp only [hu, ne_eq, not_false_eq_true, decide_True, if_true] at h
          by_cases hfl : filter_event_by_date (some s) sd ed = true
          · rw [if_pos hfl] at h
            simp only [Except.ok.injEq] at h
            subst h
            constructor
            · intro _
              exact ⟨f, s, e, rfl, hdl, hp, hu, hfl⟩
            · intro _
              simp
          · rw [if_neg hfl] at h
            simp only [Except.ok.injEq] at h
            subst h
            constructor
            · intro hc; exact absurd rfl hc
            · rintro ⟨f', s', e', hf', _, hp', _, hfl'⟩
              cases hf'
              rw [hp] at hp'
              simp only [Except.ok.injEq, Option.some.injEq, Prod.mk.injEq] at hp'
              obtain ⟨rfl, rfl⟩ := hp'
              exact absurd hfl' hfl

/-! ## Anatomy of the resolver cases -/

/-- `dt.replace(year=y)` as a total function (what `replaceYear` returns on
success). -/
def setYear (dt : DateTime) (y : Nat) : DateTime :=
  ⟨⟨y, dt.date.month, dt.date.day⟩, dt.hour, dt.minute⟩

theorem replaceYear_eq {dt : DateTime} {y : Nat} {dt2 : DateTime}
    (h : replaceYear dt y = some dt2) : dt2 = setYear dt y := by
  unfold replaceYear at h
  split_ifs at h
  cases h
  rfl

theorem strptimeDMYHM_fields {d : Nat} {mon : String} {y h mi : Nat}
    {dt : DateTime} (hp : strptimeDMYHM d mon y h mi = some dt) :
    dt.date.year = y ∧ dt.date.day = d ∧ dt.hour = h ∧ dt.minute = mi := by
  match hm : monthEnToNum mon with
  | none => simp [strptimeDMYHM, hm] at hp
  | some mo =>
    simp only [strptimeDMYHM, hm] at hp
    split_ifs at hp
    cases hp
    exact ⟨rfl, rfl, rfl, rfl⟩

/-- The year-adjustment arithmetic of case 5, factored over the two raw
endpoints: the end moves one year forward exactly when it precedes the
start; afterwards the start moves one year forward exactly when it precedes
the reference instant, and the end is left untouched by that second step. -/
theorem case5resolve_adjustment (g : Case5Groups) (ref : DateTime)
    (s0 e0 : DateTime)
    (hp1 : strptimeDMYHM g.day1 (frMonth g.mon1) ref.date.year g.h1 g.m1 =
      some s0)
    (hp2 : strptimeDMYHM g.day2 (frMonth g.mon2) ref.date.year g.h2 g.m2 =
      some e0) :
    ∀ s e, case5resolve g ref = some (s, e) →
      (dtLt e0 s0 = true → e = setYear e0 (ref.date.year + 1)) ∧
      (dtLt e0 s0 = false → e = e0) ∧
      (dtLt s0 ref = true → s = setYear s0 (ref.date.year + 1)) ∧
      (dtLt s0 ref = false → s = s0) := by
  intro s e hc
  simp only [case5resolve, hp1, hp2] at hc
  cases h1 : dtLt e0 s0 with
  | true =>
    simp only [h1, if_true] at hc
    match hr : replaceYear e0 (ref.date.year + 1) with
    | none => simp [hr] at hc
    | some e1 =>
      simp only [hr] at hc
      cases h2 : dtLt s0 ref with
      | true =>
        simp only [h2, if_true] at hc
        match hr2 : replaceYear s0 (ref.date.year + 1) with
        | none => simp [hr2] at hc
        | some s1 =>
          simp only [hr2, Option.some.injEq, Prod.mk.injEq] at hc
          obtain ⟨rfl, rfl⟩ := hc
          exact ⟨fun _ => replaceYear_eq hr, fun hf => absurd hf (by simp),
            fun _ => replaceYear_eq hr2, fun hf => absurd hf (by simp)⟩
      | false =>
        simp only [h2, Bool.false_eq_true, if_false, Option.some.injEq,
          Prod.mk.injEq] at hc
        obtain ⟨rfl, rfl⟩ := hc
        exact ⟨fun _ => replaceYear_eq hr, fun hf => absurd hf (by simp),
          fun ht => absurd ht (by simp), fun _ => rfl⟩
  | false =>
    simp only [h1, Bool.false_eq_true, if_false] at hc
    cases h2 : dtLt s0 ref with
    | true =>
      simp only [h2, if_true] at hc
      match hr2 : replaceYear s0 (ref.date.year + 1) with
      | none => simp [hr2] at hc
      | some s1 =>
        simp only [hr2, Option.some.injEq, Prod.mk.injEq] at hc
        obtain ⟨rfl, rfl⟩ := hc
        exact ⟨fun ht => absurd ht (by simp), fun _ => rfl,
          fun _ => replaceYear_eq hr2, fun hf => absurd hf (by simp)⟩
    | false =>
      simp only [h2, Bool.false_eq_true, if_false, Option.some.injEq,
        Prod.mk.injEq] at hc
      obtain ⟨rfl, rfl⟩ := hc
      exact ⟨fun ht => absurd ht (by simp), fun _ => rfl,
        fun ht => absurd ht (by simp), fun _ => rfl⟩

theorem pyMod7_spec (t w : Nat) (_hw : w < 7) (ht : t < 7) :
    pyMod7 ((t : Int) - w) < 7 ∧
      (w + pyMod7 ((t : Int) - w)) % 7 = t ∧
      (w = t → pyMod7 ((t : Int) - w) = 0) := by
  simp only [pyMod7]
  omega

theorem pyMod7_min (t w j : Nat) (_hw : w < 7) (_ht : t < 7)
    (hj : j < pyMod7 ((t : Int) - w)) : (w + j) % 7 ≠ t := by
  simp only [pyMod7] at hj ⊢
  omega

/-- Case 6 on a proper weekday name: the resolved day is the `k`-th day
after the reference date where `k < 7`, that day falls on the requested
weekday, no earlier day at or after the reference does, and `k = 0` when
the reference date itself falls on the requested weekday. -/
theorem case6resolve_weekday (wd : String) (n : Nat) (hn : n < 7)
    (hlk : WEEKDAYS.lookup wd = some (n : Int)) (hne : ¬(wd = "demain"))
    (h mi : Nat) (ref : DateTime) (hh : h ≤ 23) (hm : mi ≤ 59)
    (hv : ref.date.ValidDate) (hy : 1 ≤ ref.date.year) :
    ∃ k : Nat,
      case6resolve wd h mi ref =
        .ok (some (⟨addDays ref.date k, h, mi⟩, ⟨addDays ref.date k, h, mi⟩)) ∧
      k < 7 ∧
      weekday (addDays ref.date k) = n ∧
      (∀ j : Nat, j < k → weekday (addDays ref.date j) ≠ n) ∧
      dateLe ref.date (addDays ref.date k) = true ∧
      (weekday ref.date = n → k = 0) := by
  have hw := weekday_lt7 ref.date
  obtain ⟨hk7, hk, hk0⟩ := pyMod7_spec n (weekday ref.date) hw hn
  refine ⟨pyMod7 ((n : Int) - (weekday ref.date : Int)), ?_, hk7, ?_, ?_, ?_, ?_⟩
  · simp only [case6resolve, hne, if_false, hlk, Option.getD_some]
    simp [hh, hm]
  · rw [weekday_addDays ref.date hv hy]
    exact hk
  · intro j hj
    rw [weekday_addDays ref.date hv hy]
    exact pyMod7_min n (weekday ref.date) j hw hn hj
  · exact dateLe_addDays ref.date hv _
  · intro he
    rw [he] at hk0 ⊢
    exact hk0 rfl

theorem allValues_start_none {i : EventInfo} (h : i.start_dt = none) :
    allValues i = false := by
  simp [allValues, h]

theorem length_filter_le_one_of_nodup_map {α β : Type} [DecidableEq β]
    (l : List α) (f : α → β) (v : β) (h : (l.map f).Nodup) :
    (l.filter (fun x => f x = v)).length ≤ 1 := by
  induction l with
  | nil => simp
  | cons x xs ih =>
    simp only [List.map_cons, List.nodup_cons] at h
    by_cases hx : f x = v
    · have hnil : xs.filter (fun e => decide (f e = v)) = [] := by
        rw [List.filter_eq_nil_iff]
        intro e he
        simp only [decide_eq_true_eq]
        intro hev
        apply h.1
        rw [hx, ← hev]
        exact List.mem_map_of_mem f he
      simp only [List.filter_cons, hx, decide_True, if_true]
      rw [hnil]
      simp
    · simp only [List.filter_cons, hx, decide_False, Bool.false_eq_true,
        if_false]
      exact ih h.2

theorem filter_isNone_nil {l : List EventInfo}
    (h : ∀ e ∈ l, e.start_dt.isSome = true) :
    l.filter (fun e => e.start_dt.isNone) = [] := by
  rw [List.filter_eq_nil_iff]
  intro e he
  have := h e he
  simp only [Option.isNone_iff_eq_none]
  intro hc
  rw [hc] at this
  simp at this

theorem case6resolve_weekday_int (wd : String) (wdn : Int) (n : Nat)
    (hlk : WEEKDAYS.lookup wd = some wdn) (hn : wdn = (n : Int)) (hn7 : n < 7)
    (hne : ¬(wd = "demain")) (h mi : Nat) (ref : DateTime) (hh : h ≤ 23)
    (hm : mi ≤ 59) (hv : ref.date.ValidDate) (hy : 1 ≤ ref.date.year) :
    ∃ k : Nat,
      case6resolve wd h mi ref =
        .ok (some (⟨addDays ref.date k, h, mi⟩, ⟨addDays ref.date k, h, mi⟩)) ∧
      k < 7 ∧
      (weekday (addDays ref.date k) : Int) = wdn ∧
      (∀ j : Nat, j < k → (weekday (addDays ref.date j) : Int) ≠ wdn) ∧
      dateLe ref.date (addDays ref.date k) = true ∧
      ((weekday ref.date : Int) = wdn → k = 0) := by
  subst hn
  obtain ⟨k, heq, hk7, hwd, hmin, hle, hz⟩ :=
    case6resolve_weekday wd n hn7 hlk hne h mi ref hh hm hv hy
  refine ⟨k, heq, hk7, by exact_mod_cast hwd, ?_, hle, ?_⟩
  · intro j hj hcast
    exact hmin j hj (by exact_mod_cast hcast)
  · intro hcast
    exact hz (by exact_mod_cast hcast)

set_option maxHeartbeats 2000000

/-! ## The claims -/

/-- C1: the claimed invariant "end >= start for every successfully resolved
interval" is violated by the code.  For the explicit-range phrase
"du 18 déc. 20:00 au 22 déc. 03:00" against reference 2025-12-20, case 5
first finds end (2025-12-22) after start (2025-12-18), so it does not touch
the end; then, because the start precedes the reference, it advances only
the start's year.  The returned interval has start 2026-12-18T20:00 and end
2025-12-22T03:00, i.e. end < start.  The source itself marks the method
with "TODO fix this method. Start date and end date are wrong". -/
theorem c1_resolved_interval_end_before_start :
    parse_event_date "du 18 déc. 20:00 au 22 déc. 03:00"
        ⟨⟨2025, 12, 20⟩, 0, 0⟩ =
      .ok (some (⟨⟨2026, 12, 18⟩, 20, 0⟩, ⟨⟨2025, 12, 22⟩, 3, 0⟩)) ∧
    dtLt ⟨⟨2025, 12, 22⟩, 3, 0⟩ ⟨⟨2026, 12, 18⟩, 20, 0⟩ = true :=
  ⟨rfl, rfl⟩

/-- C2 counterexample: the claim says that when the computed start precedes
the reference instant, BOTH the start's and the end's year are advanced.
On "du 18 déc. 20:00 au 22 déc. 03:00" with reference 2025-12-20 the raw
start 2025-12-18T20:00 does precede the reference (second conjunct), yet
the returned end keeps year 2025: it is not the year-advanced
2026-12-22T03:00 the claim predicts (third conjunct). -/
theorem c2_counterexample_end_year_not_advanced :
    parse_event_date "du 18 déc. 20:00 au 22 déc. 03:00"
        ⟨⟨2025, 12, 20⟩, 0, 0⟩ =
      .ok (some (⟨⟨2026, 12, 18⟩, 20, 0⟩, ⟨⟨2025, 12, 22⟩, 3, 0⟩)) ∧
    dtLt ⟨⟨2025, 12, 18⟩, 20, 0⟩ ⟨⟨2025, 12, 20⟩, 0, 0⟩ = true ∧
    (⟨⟨2025, 12, 22⟩, 3, 0⟩ : DateTime) ≠ ⟨⟨2026, 12, 22⟩, 3, 0⟩ :=
  ⟨rfl, rfl, by decide⟩

/-- C2 (amended): in the explicit-range case both endpoints are first
resolved in the reference year; the end's year is advanced by one exactly
when the computed end is before the computed start; and when the computed
start is strictly before the reference instant ONLY the start's year is
advanced — the end is left unchanged by that second adjustment. -/
theorem c2_range_year_adjustment (g : Case5Groups) (ref : DateTime)
    (s0 e0 : DateTime)
    (hp1 : strptimeDMYHM g.day1 (frMonth g.mon1) ref.date.year g.h1 g.m1 =
      some s0)
    (hp2 : strptimeDMYHM g.day2 (frMonth g.mon2) ref.date.year g.h2 g.m2 =
      some e0) :
    s0.date.year = ref.date.year ∧ e0.date.year = ref.date.year ∧
    ∀ s e, case5resolve g ref = some (s, e) →
      (dtLt e0 s0 = true → e = setYear e0 (ref.date.year + 1)) ∧
      (dtLt e0 s0 = false → e = e0) ∧
      (dtLt s0 ref = true → s = setYear s0 (ref.date.year + 1)) ∧
      (dtLt s0 ref = false → s = s0) :=
  ⟨(strptimeDMYHM_fields hp1).1, (strptimeDMYHM_fields hp2).1,
    case5resolve_adjustment g ref s0 e0 hp1 hp2⟩

/-- C2 witness: the amended statement applied to the spec's scenario 5
("from 18 Dec 20:00 to 22 Dec 03:00" against 2025-11-01), whose endpoints
need no adjustment, together with the string-level run of that scenario. -/
theorem c2_range_year_adjustment_witness :
    ((⟨⟨2025, 12, 18⟩, 20, 0⟩ : DateTime).date.year =
        (⟨⟨2025, 11, 1⟩, 0, 0⟩ : DateTime).date.year ∧
      (⟨⟨2025, 12, 22⟩, 3, 0⟩ : DateTime).date.year =
        (⟨⟨2025, 11, 1⟩, 0, 0⟩ : DateTime).date.year ∧
      ∀ s e,
        case5resolve ⟨18, "déc.", 20, 0, 22, "déc.", 3, 0⟩
            ⟨⟨2025, 11, 1⟩, 0, 0⟩ = some (s, e) →
        (dtLt ⟨⟨2025, 12, 22⟩, 3, 0⟩ ⟨⟨2025, 12, 18⟩, 20, 0⟩ = true →
          e = setYear ⟨⟨2025, 12, 22⟩, 3, 0⟩
            ((⟨⟨2025, 11, 1⟩, 0, 0⟩ : DateTime).date.year + 1)) ∧
        (dtLt ⟨⟨2025, 12, 22⟩, 3, 0⟩ ⟨⟨2025, 12, 18⟩, 20, 0⟩ = false →
          e = ⟨⟨2025, 12, 22⟩, 3, 0⟩) ∧
        (dtLt ⟨⟨2025, 12, 18⟩, 20, 0⟩ ⟨⟨2025, 11, 1⟩, 0, 0⟩ = true →
          s = setYear ⟨⟨2025, 12, 18⟩, 20, 0⟩
            ((⟨⟨2025, 11, 1⟩, 0, 0⟩ : DateTime).date.year + 1)) ∧
        (dtLt ⟨⟨2025, 12, 18⟩, 20, 0⟩ ⟨⟨2025, 11, 1⟩, 0, 0⟩ = false →
          s = ⟨⟨2025, 12, 18⟩, 20, 0⟩)) ∧
    parse_event_date "du 18 déc. 20:00 au 22 déc. 03:00"
        ⟨⟨2025, 11, 1⟩, 0, 0⟩ =
      .ok (some (⟨⟨2025, 12, 18⟩, 20, 0⟩, ⟨⟨2025, 12, 22⟩, 3, 0⟩)) :=
  ⟨c2_range_year_adjustment ⟨18, "déc.", 20, 0, 22, "déc.", 3, 0⟩
      ⟨⟨2025, 11, 1⟩, 0, 0⟩ ⟨⟨2025, 12, 18⟩, 20, 0⟩ ⟨⟨2025, 12, 22⟩, 3, 0⟩
      rfl rfl, rfl⟩

/-- C3: the claim "resolution never throws for malformed input" is violated
by the code.  Case 6 builds the result with
`datetime.combine(...).replace(hour=..., minute=...)` outside any `try`, so
"demain à 25:00" raises `ValueError` (hour 25) instead of yielding absence
(first conjunct), while the guarded cases do yield absence for a
comparable calendar error (second conjunct: day 99 in case 5 is caught and
returned as `(None, None)`). -/
theorem c3_out_of_range_hour_raises :
    parse_event_date "demain à 25:00" ⟨⟨2025, 6, 10⟩, 0, 0⟩ = .error () ∧
    parse_event_date "du 99 déc. 20:00 au 22 déc. 03:00"
        ⟨⟨2025, 6, 10⟩, 0, 0⟩ = .ok none :=
  ⟨rfl, rfl⟩

/-- C5: `_filter_event_by_date` behaves exactly as the spec's WindowFilter:
it agrees with the spec-side `windowKeepSpec` on every input; with no
window everything is kept; with a window an unresolved start is rejected;
with a window and a resolved start the record is kept iff
`from <= start <= to` with both comparisons inclusive and only the start
tested; in particular a start equal to `window.to` is kept whenever
`from <= start`. -/
theorem c5_window_filter_exact :
    (∀ (s : Option DateTime) (w : Option (DateTime × DateTime)),
      filter_event_by_date s (w.map Prod.fst) (w.map Prod.snd) =
        windowKeepSpec s w) ∧
    (∀ s : Option DateTime, filter_event_by_date s none none = true) ∧
    (∀ f t : DateTime, filter_event_by_date none (some f) (some t) = false) ∧
    (∀ (s f t : DateTime),
      filter_event_by_date (some s) (some f) (some t) =
        (dtLe f s && dtLe s t)) ∧
    (∀ (s f : DateTime),
      filter_event_by_date (some s) (some f) (some s) = dtLe f s) := by
  refine ⟨?_, ?_, ?_, ?_, ?_⟩
  · intro s w
    match w with
    | none => rfl
    | some (f, t) =>
      match s with
      | none => rfl
      | some st => rfl
  · intro s; rfl
  · intro f t; rfl
  · intro s f t; rfl
  · intro s f
    show (dtLe f s && dtLe s s) = dtLe f s
    rw [dtLe_refl s]
    exact Bool.and_true _

/-- C9: for a "weekday-name at time" phrase, case 6 resolves to the `k`-th
day after the reference date where `k < 7`, that day falls on the named
weekday, no earlier day at or after the reference does (zero days ahead
when the reference date itself falls on the named weekday — never a full
week skip), and the result is a single instant (start = end, the same
`DateTime` twice); "tomorrow at time" is always reference date + 1 day,
also with start = end. -/
theorem c9_weekday_and_tomorrow :
    (∀ (wd : String) (wdn : Int) (h mi : Nat) (ref : DateTime),
      (wd, wdn) ∈ WEEKDAYS → ¬(wd = "demain") → h ≤ 23 → mi ≤ 59 →
      ref.date.ValidDate → 1 ≤ ref.date.year →
      ∃ k : Nat,
        case6resolve wd h mi ref =
          .ok (some (⟨addDays ref.date k, h, mi⟩,
            ⟨addDays ref.date k, h, mi⟩)) ∧
        k < 7 ∧
        (weekday (addDays ref.date k) : Int) = wdn ∧
        (∀ j : Nat, j < k → (weekday (addDays ref.date j) : Int) ≠ wdn) ∧
        dateLe ref.date (addDays ref.date k) = true ∧
        ((weekday ref.date : Int) = wdn → k = 0)) ∧
    (∀ (h mi : Nat) (ref : DateTime), h ≤ 23 → mi ≤ 59 →
      case6resolve "demain" h mi ref =
        .ok (some (⟨succDay ref.date, h, mi⟩, ⟨succDay ref.date, h, mi⟩))) := by
  constructor
  · intro wd wdn h mi ref hmem hne hh hm hv hy
    simp only [WEEKDAYS, List.mem_cons, List.mem_singleton,
      List.not_mem_nil, or_false, Prod.mk.injEq] at hmem
    rcases hmem with hwk | hwk | hwk | hwk | hwk | hwk | hwk | hwk <;>
      obtain ⟨rfl, rfl⟩ := hwk
    · exact absurd rfl hne
    · exact case6resolve_weekday_int "lundi" 0 0 rfl rfl (by omega) hne h mi
        ref hh hm hv hy
    · exact case6resolve_weekday_int "mardi" 1 1 rfl rfl (by omega) hne h mi
        ref hh hm hv hy
    · exact case6resolve_weekday_int "mercredi" 2 2 rfl rfl (by omega) hne h mi
        ref hh hm hv hy
    · exact case6resolve_weekday_int "jeudi" 3 3 rfl rfl (by omega) hne h mi
        ref hh hm hv hy
    · exact case6resolve_weekday_int "vendredi" 4 4 rfl rfl (by omega) hne h mi
        ref hh hm hv hy
    · exact case6resolve_weekday_int "samedi" 5 5 rfl rfl (by omega) hne h mi
        ref hh hm hv hy
    · exact case6resolve_weekday_int "dimanche" 6 6 rfl rfl (by omega) hne h mi
        ref hh hm hv hy
  · intro h mi ref hh hm
    simp [case6resolve, hh, hm]

/-- C9 witness: "samedi à 20:00" and "demain à 20:00" against Tuesday
2025-06-10, at the weekday-case level and through the full string-level
resolver (next Saturday is 2025-06-14, tomorrow is 2025-06-11). -/
theorem c9_weekday_and_tomorrow_witness :
    (∃ k : Nat,
      case6resolve "samedi" 20 0 ⟨⟨2025, 6, 10⟩, 0, 0⟩ =
        .ok (some (⟨addDays ⟨2025, 6, 10⟩ k, 20, 0⟩,
          ⟨addDays ⟨2025, 6, 10⟩ k, 20, 0⟩)) ∧
      k < 7 ∧
      (weekday (addDays ⟨2025, 6, 10⟩ k) : Int) = 5 ∧
      (∀ j : Nat, j < k → (weekday (addDays ⟨2025, 6, 10⟩ j) : Int) ≠ 5) ∧
      dateLe ⟨2025, 6, 10⟩ (addDays ⟨2025, 6, 10⟩ k) = true ∧
      ((weekday ⟨2025, 6, 10⟩ : Int) = 5 → k = 0)) ∧
    case6resolve "demain" 20 0 ⟨⟨2025, 6, 10⟩, 0, 0⟩ =
      .ok (some (⟨⟨2025, 6, 11⟩, 20, 0⟩, ⟨⟨2025, 6, 11⟩, 20, 0⟩)) ∧
    parse_event_date "samedi à 20:00" ⟨⟨2025, 6, 10⟩, 0, 0⟩ =
      .ok (some (⟨⟨2025, 6, 14⟩, 20, 0⟩, ⟨⟨2025, 6, 14⟩, 20, 0⟩)) ∧
    parse_event_date "demain à 20:00" ⟨⟨2025, 6, 10⟩, 0, 0⟩ =
      .ok (some (⟨⟨2025, 6, 11⟩, 20, 0⟩, ⟨⟨2025, 6, 11⟩, 20, 0⟩)) :=
  ⟨c9_weekday_and_tomorrow.1 "samedi" 5 20 0 ⟨⟨2025, 6, 10⟩, 0, 0⟩
      (by decide) (by decide) (by decide) (by decide) (by decide) (by decide),
    c9_weekday_and_tomorrow.2 20 0 ⟨⟨2025, 6, 10⟩, 0, 0⟩ (by decide)
      (by decide),
    rfl, rfl⟩

/-- C10: in the bare time-range case, the start and end clock times are
placed on the resolved event date; when the computed end is less than or
equal to the computed start, exactly one day is added to the end (the
returned end is the next calendar day — its ordinal is the date's ordinal
plus one — at the same clock time, and it then lies strictly after the
start); otherwise the end is returned unchanged. -/
theorem c10_overnight_wrap (d : Date) (sh sm eh em : Nat)
    (hv : d.ValidDate) (hy : 1 ≤ d.year) (h1 : sh ≤ 23) (h2 : sm ≤ 59)
    (h3 : eh ≤ 23) (h4 : em ≤ 59) :
    ∃ e : DateTime,
      bottomResolve d sh sm eh em = .ok (some (⟨d, sh, sm⟩, e)) ∧
      (dtLe ⟨d, eh, em⟩ ⟨d, sh, sm⟩ = true →
        e = ⟨succDay d, eh, em⟩ ∧ toOrdinal e.date = toOrdinal d + 1 ∧
        dtLt ⟨d, sh, sm⟩ e = true) ∧
      (dtLe ⟨d, eh, em⟩ ⟨d, sh, sm⟩ = false → e = ⟨d, eh, em⟩) := by
  refine ⟨if dtLe ⟨d, eh, em⟩ ⟨d, sh, sm⟩ then ⟨succDay d, eh, em⟩
    else ⟨d, eh, em⟩, ?_, ?_, ?_⟩
  · simp [bottomResolve, h1, h2, h3, h4]
  · intro hle
    rw [if_pos hle]
    refine ⟨rfl, toOrdinal_succDay d hv hy, ?_⟩
    have hlt := dateLt_succDay d hv
    simp [dtLt, hlt]
  · intro hle
    rw [if_neg (by simp [hle])]

/-- C10 witness: the wrap branch on Saturday 2025-06-14 with times 20:00
and 01:30, plus the spec's scenario 3 through the full string-level
resolver: "samedi de 20:00 à 01:30" against Tuesday 2025-06-10 yields
start 2025-06-14T20:00 and end 2025-06-15T01:30. -/
theorem c10_overnight_wrap_witness :
    (∃ e : DateTime,
      bottomResolve ⟨2025, 6, 14⟩ 20 0 1 30 =
        .ok (some (⟨⟨2025, 6, 14⟩, 20, 0⟩, e)) ∧
      (dtLe ⟨⟨2025, 6, 14⟩, 1, 30⟩ ⟨⟨2025, 6, 14⟩, 20, 0⟩ = true →
        e = ⟨succDay ⟨2025, 6, 14⟩, 1, 30⟩ ∧
        toOrdinal e.date = toOrdinal ⟨2025, 6, 14⟩ + 1 ∧
        dtLt ⟨⟨2025, 6, 14⟩, 20, 0⟩ e = true) ∧
      (dtLe ⟨⟨2025, 6, 14⟩, 1, 30⟩ ⟨⟨2025, 6, 14⟩, 20, 0⟩ = false →
        e = ⟨⟨2025, 6, 14⟩, 1, 30⟩)) ∧
    parse_event_date "samedi de 20:00 à 01:30" ⟨⟨2025, 6, 10⟩, 0, 0⟩ =
      .ok (some (⟨⟨2025, 6, 14⟩, 20, 0⟩, ⟨⟨2025, 6, 15⟩, 1, 30⟩)) :=
  ⟨c10_overnight_wrap ⟨2025, 6, 14⟩ 20 0 1 30 (by decide) (by decide)
      (by decide) (by decide) (by decide) (by decide), rfl⟩

/-- C4: across one whole `scrape_multiple` run, the combined final result
carries each query-string-stripped identifier at most once (for any `id`,
at most one record whose `link` is the base URL followed by `id`); at the
dedup level, an identifier already in `seen` is skipped by every later
extraction, and a fresh identifier backed by an accepted raw `href` is
kept (returned and recorded in `seen`). -/
theorem c4_dedup_across_run :
    (∀ (url : String) (keywords : List String)
      (pageOracle : String → List (Option String))
      (detail : String → Option Fragments) (now : DateTime)
      (sd ed : Option DateTime) (R : List (String × List EventInfo))
      (S : List String),
      scrape_multiple url keywords pageOracle detail now sd ed = .ok (R, S) →
      ∀ id : String,
        ((combinedEvents R).filter
          (fun e => e.link = url ++ id)).length ≤ 1) ∧
    (∀ (hrefs : List (Option String)) (url : String) (seen : List String)
      (c : String), c ∈ seen →
      c ∉ (extract_event_links hrefs url seen).1) ∧
    (∀ (hrefs : List (Option String)) (url : String) (seen : List String)
      (c : String), c ∉ seen → (∃ h ∈ hrefs, AcceptedHref url h c) →
      c ∈ (extract_event_links hrefs url seen).1 ∧
        c ∈ (extract_event_links hrefs url seen).2) := by
  refine ⟨?_, ?_, ?_⟩
  · intro url keywords pageOracle detail now sd ed R S h id
    have hnd := (scrape_multiple_inv url keywords pageOracle detail now sd ed
      R S h).1
    exact length_filter_le_one_of_nodup_map _ _ _ hnd
  · intro hrefs url seen c hc
    exact extract_event_links_skips hrefs url seen c hc
  · intro hrefs url seen c hc hex
    have h1 := extract_event_links_keeps hrefs url seen c hc hex
    refine ⟨h1, ?_⟩
    rw [(extract_event_links_spec hrefs url seen).1]
    exact List.mem_append.mpr (Or.inr h1)

def wUrl : String := "FB"

def wFragA : Fragments := ⟨"t", "demain à 21:00", "l", "d", none⟩

def wFragB : Fragments := ⟨"t2", "demain à 09:00", "l2", "d2", some "img"⟩

def wOracle : String → List (Option String) := fun k =>
  if k = "a" then [some "/events/2?ref=x"]
  else if k = "b" then [some "/events/1", some "/events/2"] else []

def wDetail : String → Option Fragments := fun u =>
  if u = "FB/events/2" then some wFragA
  else if u = "FB/events/1" then some wFragB else none

def wNow : DateTime := ⟨⟨2025, 6, 10⟩, 0, 0⟩

def wRecA : EventInfo :=
  ⟨"Mercredi - 21h00 à 21h00", some ⟨⟨2025, 6, 11⟩, 21, 0⟩,
    some ⟨⟨2025, 6, 11⟩, 21, 0⟩, "t", "l", "d", "d", "not found",
    "FB/events/2", "not found", "not found"⟩

def wRecB : EventInfo :=
  ⟨"Mercredi - 09h00 à 09h00", some ⟨⟨2025, 6, 11⟩, 9, 0⟩,
    some ⟨⟨2025, 6, 11⟩, 9, 0⟩, "t2", "l2", "d2", "d2", "img",
    "FB/events/1", "not found", "not found"⟩

/-- C4 witness: a two-keyword run in which keyword "b" rediscovers
`/events/2` (already consumed by keyword "a", up to a query string); the
combined output carries that identifier once, a seen identifier is skipped
on re-extraction, and a fresh accepted `href` is kept. -/
theorem c4_dedup_across_run_witness :
    ((combinedEvents [("a", [wRecA]), ("b", [wRecB])]).filter
        (fun e => e.link = wUrl ++ "/events/2")).length ≤ 1 ∧
    "/events/2" ∉
      (extract_event_links [some "/events/2"] wUrl ["/events/2"]).1 ∧
    "/events/123" ∈
      (extract_event_links [some "/events/123?x=1"] wUrl []).1 :=
  ⟨c4_dedup_across_run.1 wUrl ["a", "b"] wOracle wDetail wNow none none
      [("a", [wRecA]), ("b", [wRecB])] ["/events/2", "/events/1"] rfl
      "/events/2",
    c4_dedup_across_run.2.1 [some "/events/2"] wUrl ["/events/2"]
      "/events/2" (by simp),
    (c4_dedup_across_run.2.2 [some "/events/123?x=1"] wUrl [] "/events/123"
      (by simp)
      ⟨some "/events/123?x=1", by simp,
        "/events/123?x=1", rfl, by decide, rfl, rfl, rfl⟩).1⟩

/-- C6: the final aggregated sequence (the stable sort of the concatenated
per-keyword results, in discovery order) is ascending by the resolver key
(`EvLe` compares resolved starts), is a permutation of the concatenation,
its unresolved-record subsequence is exactly that of the input (preserving
discovery order among unresolved records), and any unresolved record sits
after every resolved one.  Both of the last two clauses hold vacuously:
the final conjunct shows every record in the output has a resolved start,
because `all(info.values())` drops records with an unresolved date long
before the sort. -/
theorem c6_final_sort_order (url : String) (keywords : List String)
    (pageOracle : String → List (Option String))
    (detail : String → Option Fragments) (now : DateTime)
    (sd ed : Option DateTime) (R : List (String × List EventInfo))
    (S : List String)
    (h : scrape_multiple url keywords pageOracle detail now sd ed =
      .ok (R, S)) :
    List.Pairwise EvLe (sortEvents (combinedEvents R)) ∧
    List.Perm (sortEvents (combinedEvents R)) (combinedEvents R) ∧
    (sortEvents (combinedEvents R)).filter (fun e => e.start_dt.isNone) =
      (combinedEvents R).filter (fun e => e.start_dt.isNone) ∧
    (∀ i j : Fin (sortEvents (combinedEvents R)).length,
      ((sortEvents (combinedEvents R)).get i).start_dt = none →
      ((sortEvents (combinedEvents R)).get j).start_dt ≠ none → j < i) ∧
    (∀ e ∈ sortEvents (combinedEvents R), e.start_dt.isSome = true) := by
  have hall := (scrape_multiple_inv url keywords pageOracle detail now sd ed
    R S h).2
  have hallc : ∀ e ∈ combinedEvents R, e.start_dt.isSome = true := by
    intro e he
    obtain ⟨p, hp, hep⟩ := mem_combinedEvents.mp he
    have := hall p hp e hep
    simp only [allValues, Bool.and_eq_true] at this
    exact this.1.1.1.1.1.1.1.1.1.2
  have hperm := sortEvents_perm (combinedEvents R)
  have hsorted := sortEvents_sorted (combinedEvents R)
  have halls : ∀ e ∈ sortEvents (combinedEvents R), e.start_dt.isSome = true :=
    fun e he => hallc e (hperm.mem_iff.mp he)
  refine ⟨hsorted, hperm, ?_, ?_, halls⟩
  · rw [filter_isNone_nil halls, filter_isNone_nil hallc]
  · intro i j hi _
    have hmem : (sortEvents (combinedEvents R)).get i ∈
        sortEvents (combinedEvents R) := List.get_mem _ _ _
    have h5 := halls _ hmem
    rw [hi] at h5
    simp at h5

/-- C6 witness: a run discovering two events in reverse chronological
order; the final sequence is sorted (the 09:00 record precedes the 21:00
one), is a permutation of the discovery order, and contains only records
with resolved starts. -/
theorem c6_final_sort_order_witness :
    List.Pairwise EvLe
      (sortEvents (combinedEvents [("a", [wRecA]), ("b", [wRecB])])) ∧
    List.Perm (sortEvents (combinedEvents [("a", [wRecA]), ("b", [wRecB])]))
      (combinedEvents [("a", [wRecA]), ("b", [wRecB])]) ∧
    (sortEvents (combinedEvents [("a", [wRecA]), ("b", [wRecB])])).filter
        (fun e => e.start_dt.isNone) =
      (combinedEvents [("a", [wRecA]), ("b", [wRecB])]).filter
        (fun e => e.start_dt.isNone) ∧
    (∀ i j : Fin (sortEvents
        (combinedEvents [("a", [wRecA]), ("b", [wRecB])])).length,
      ((sortEvents (combinedEvents [("a", [wRecA]), ("b", [wRecB])])).get
        i).start_dt = none →
      ((sortEvents (combinedEvents [("a", [wRecA]), ("b", [wRecB])])).get
        j).start_dt ≠ none → j < i) ∧
    (∀ e ∈ sortEvents (combinedEvents [("a", [wRecA]), ("b", [wRecB])]),
      e.start_dt.isSome = true) :=
  c6_final_sort_order wUrl ["a", "b"] wOracle wDetail wNow none none
    [("a", [wRecA]), ("b", [wRecB])] ["/events/2", "/events/1"] rfl

/-- C7 counterexample: a malformed window (from 2025-06-17 strictly after
to 2025-06-10, first conjunct) is NOT rejected at `scrape_multiple`: the
run proceeds normally, processes the keyword (its entry appears in the
result dict and its candidate link was consumed into `seen`) and returns
an empty result instead of failing. -/
theorem c7_counterexample_no_window_validation :
    dtLt ⟨⟨2025, 6, 10⟩, 0, 0⟩ ⟨⟨2025, 6, 17⟩, 0, 0⟩ = true ∧
    scrape_multiple wUrl ["a"] wOracle wDetail wNow
        (some ⟨⟨2025, 6, 17⟩, 0, 0⟩) (some ⟨⟨2025, 6, 10⟩, 0, 0⟩) =
      .ok ([("a", [])], ["/events/2"]) :=
  ⟨rfl, rfl⟩

/-- C7 (amended): `scrape_multiple` performs no validation of the search
window at all; a window with from strictly after to is processed like any
other and merely makes the filter reject every record, so every keyword's
result list in a completed run is empty. -/
theorem c7_bad_window_yields_empty_results (url : String)
    (keywords : List String) (pageOracle : String → List (Option String))
    (detail : String → Option Fragments) (now : DateTime) (sd ed : DateTime)
    (R : List (String × List EventInfo)) (S : List String)
    (hbad : dtLt ed sd = true)
    (h : scrape_multiple url keywords pageOracle detail now (some sd)
      (some ed) = .ok (R, S)) :
    ∀ p ∈ R, p.2 = [] :=
  scrapeMultipleGo_bad_window url pageOracle detail now hbad keywords [] []
    R S h (by simp)

/-- C7 witness: the amended statement on a concrete run with
from = 2025-06-17 > to = 2025-06-10. -/
theorem c7_bad_window_yields_empty_results_witness :
    dtLt ⟨⟨2025, 6, 10⟩, 0, 0⟩ ⟨⟨2025, 6, 17⟩, 0, 0⟩ = true ∧
    ∀ p ∈ [("a", ([] : List EventInfo))], p.2 = [] :=
  ⟨rfl,
    c7_bad_window_yields_empty_results wUrl ["a"] wOracle wDetail wNow
      ⟨⟨2025, 6, 17⟩, 0, 0⟩ ⟨⟨2025, 6, 10⟩, 0, 0⟩ [("a", [])]
      ["/events/2"] rfl rfl⟩

def wFragNT : Fragments := ⟨"", "samedi de 20:00 à 01:30", "", "d", none⟩

def wRecNT : EventInfo :=
  ⟨"Samedi - 20h00 à 01h30", some ⟨⟨2025, 6, 14⟩, 20, 0⟩,
    some ⟨⟨2025, 6, 15⟩, 1, 30⟩, "not found", "not found", "d", "d",
    "not found", "FB/events/9", "not found", "not found"⟩

/-- C8 counterexample: a candidate whose extracted title AND location are
both empty (first two conjuncts) is NOT dropped: the run keeps a record
for it, with the placeholder "not found" substituted for the empty title
(and location), contradicting the claim that such a candidate produces no
record. -/
theorem c8_counterexample_empty_title_kept :
    wFragNT.title = "" ∧ wFragNT.location = "" ∧
    scrape wUrl [some "/events/9"] (fun _ => some wFragNT) wNow none none
        [] = .ok ([wRecNT], ["/events/9"]) ∧
    wRecNT.title = "not found" ∧ wRecNT.location = "not found" :=
  ⟨rfl, rfl, rfl, rfl, rfl⟩

/-- C8 (amended): a candidate whose detail fetch fails produces no record;
one whose date fragment is empty, or whose date fragment fails to resolve,
is assembled but rejected by the all-fields check (its resolved start is
absent); an empty title or location however does NOT drop the candidate —
the placeholder "not found" is substituted; and for a single candidate a
record is kept iff the fetch succeeds, the date fragment is non-empty and
resolves, the page URL is non-empty, and the window filter accepts the
resolved start. -/
theorem c8_keep_and_drop_conditions :
    (∀ (u : String) (now : DateTime),
      parse_event_page none u now = .ok none) ∧
    (∀ (f : Fragments) (u : String) (now : DateTime) (i : EventInfo),
      parse_event_page (some f) u now = .ok (some i) → f.dateLine = "" →
      allValues i = false) ∧
    (∀ (f : Fragments) (u : String) (now : DateTime) (i : EventInfo),
      parse_event_page (some f) u now = .ok (some i) →
      parse_event_date f.dateLine now = .ok none → allValues i = false) ∧
    (∀ (f : Fragments) (u : String) (now : DateTime) (i : EventInfo),
      parse_event_page (some f) u now = .ok (some i) → f.title = "" →
      i.title = "not found") ∧
    (∀ (f : Fragments) (u : String) (now : DateTime) (i : EventInfo),
      parse_event_page (some f) u now = .ok (some i) → f.location = "" →
      i.location = "not found") ∧
    (∀ (url : String) (detail : String → Option Fragments) (now : DateTime)
      (sd ed : Option DateTime) (l : String) (evs : List EventInfo),
      scrapeLoop url detail now sd ed [l] = .ok evs →
      (evs ≠ [] ↔ ∃ f s e, detail (url ++ l) = some f ∧ f.dateLine ≠ "" ∧
        parse_event_date f.dateLine now = .ok (some (s, e)) ∧
        url ++ l ≠ "" ∧ filter_event_by_date (some s) sd ed = true)) := by
  refine ⟨?_, ?_, ?_, ?_, ?_, ?_⟩
  · intro u now; rfl
  · intro f u now i hp hdl
    obtain ⟨f', hf', _, _, _, _, _, _, _, _, hcase⟩ := parse_event_page_some hp
    cases hf'
    rcases hcase with ⟨_, hstart, _, _⟩ | ⟨hne, _, _, _, _⟩ |
      ⟨s, e, hne, _, _, _, _⟩
    · exact allValues_start_none hstart
    · exact absurd hdl hne
    · exact absurd hdl hne
  · intro f u now i hp hpd
    obtain ⟨f', hf', _, _, _, _, _, _, _, _, hcase⟩ := parse_event_page_some hp
    cases hf'
    rcases hcase with ⟨_, hstart, _, _⟩ | ⟨_, _, hstart, _, _⟩ |
      ⟨s, e, _, hpe, _, _, _⟩
    · exact allValues_start_none hstart
    · exact allValues_start_none hstart
    · rw [hpd] at hpe
      exact absurd hpe (by simp)
  · intro f u now i hp ht
    obtain ⟨f', hf', _, htit, _⟩ := parse_event_page_some hp
    cases hf'
    rw [htit, ht]
    rfl
  · intro f u now i hp hl
    obtain ⟨f', hf', _, _, hloc, _⟩ := parse_event_page_some hp
    cases hf'
    rw [hloc, hl]
    rfl
  · intro url detail now sd ed l evs h
    exact scrapeLoop_single url detail now sd ed l evs h

/-- C8 witness: an empty date fragment yields a record failing the
all-fields check, and the single-candidate keep condition holds for the
concrete empty-title candidate that IS kept. -/
theorem c8_keep_and_drop_conditions_witness :
    allValues ⟨"", none, none, "t", "l", "d", "d", "not found", "FB/x",
      "not found", "not found"⟩ = false ∧
    ([wRecNT] ≠ ([] : List EventInfo) ↔
      ∃ f s e,
        (fun _ : String => some wFragNT) (wUrl ++ "/events/9") = some f ∧
        f.dateLine ≠ "" ∧
        parse_event_date f.dateLine wNow = .ok (some (s, e)) ∧
        wUrl ++ "/events/9" ≠ "" ∧
        filter_event_by_date (some s) none none = true) :=
  ⟨c8_keep_and_drop_conditions.2.1 ⟨"t", "", "l", "d", none⟩ "FB/x" wNow
      ⟨"", none, none, "t", "l", "d", "d", "not found", "FB/x", "not found",
        "not found"⟩ rfl rfl,
    c8_keep_and_drop_conditions.2.2.2.2.2 wUrl
      (fun _ => some wFragNT) wNow none none "/events/9" [wRecNT] rfl⟩
